import Mathlib

/-!
Verification development for the chartdb metadata-to-diagram transformation
and automatic layout engine.

The TypeScript source is shallowly embedded:
* JS numbers in the geometric code are modelled as rationals (`ℚ`); the
  calls to `Math.cos` / `Math.sin` are abstracted as parameters
  `cosA sinA : ℚ → ℚ`, where angles are measured in turns (so `1/8` of a
  turn stands for the source's `Math.PI / 4` increment, and the source's
  `angle >= 2 * Math.PI` test becomes `1 ≤ angle`).
* JS `Map`s / plain-object records are modelled as association lists in
  insertion order, matching JS iteration order for the string keys used here.
* Side-effecting primitives (`generateId`, `Date.now`, `Math.random`,
  `randomColor`) are modelled as explicit capabilities in a context record,
  with `generateId` calls numbered in source call order.
* `deepCopy` is the identity on immutable values, so the defensive copies
  taken by the layout engine are not represented explicitly.
-/

namespace ChartDB

/-- Character-list model of JS `String.prototype.trim`. -/
def jsTrim (s : String) : String :=
  String.mk (((s.data.dropWhile Char.isWhitespace).reverse.dropWhile Char.isWhitespace).reverse)

/-- Character-list model of `s.split(' ').join('_')`: every space becomes an
underscore. -/
def spaceToUnderscore (s : String) : String :=
  String.mk (s.data.map (fun c => if c = ' ' then '_' else c))

/-- Modelled from the spec: `schemaNameToDomainSchemaName` (from the
`db-schema` module, which is not among the provided sources) normalizes a
schema name, mapping a source-reported "no schema"/empty value to a single
canonical absent-schema representation and keeping any other name. -/
def schemaNameToDomainSchemaName : Option String → Option String
  | none => none
  | some s => if s = "" then none else some s

/-- Rendering of an optional schema inside a JS template literal:
`undefined` prints as the string `"undefined"`. -/
def optSchemaToStr : Option String → String
  | none => "undefined"
  | some s => s

/-- Raw table descriptor (`TableInfo`). -/
structure TableInfo where
  schema : Option String
  table : String
  comment : Option String
  auditable : Bool
  revisionEnabled : Bool
  deriving DecidableEq

/-- Optional numeric precision information of a raw column. -/
structure PrecisionInfo where
  precision : Option Int
  scale : Option Int
  deriving DecidableEq

/-- Raw column descriptor (`ColumnInfo`). -/
structure ColumnInfo where
  schema : Option String
  table : String
  name : String
  ordinal_position : Int
  type : String
  nullable : Bool
  character_maximum_length : Option String
  precision : Option PrecisionInfo
  default : Option String
  collation : Option String
  comment : Option String
  deriving DecidableEq

/-- Raw index descriptor: one row per indexed column (`IndexInfo`). -/
structure IndexInfo where
  schema : Option String
  table : String
  name : String
  column : String
  unique : Bool
  column_position : Int
  deriving DecidableEq

/-- Raw primary-key descriptor (`PrimaryKeyInfo`). -/
structure PrimaryKeyInfo where
  schema : Option String
  table : String
  column : String
  deriving DecidableEq

/-- Raw view descriptor (`ViewInfo`). -/
structure ViewInfo where
  schema : Option String
  view_name : String
  deriving DecidableEq

/-- Type descriptor of a built field. -/
structure FieldType where
  id : String
  name : String
  deriving DecidableEq

/-- Built field entity (`DBField`). -/
structure DBField where
  id : String
  name : String
  type : FieldType
  primaryKey : Bool
  unique : Bool
  nullable : Bool
  character_maximum_length : Option String
  precision : Option Int
  scale : Option Int
  default : Option String
  collation : Option String
  createdAt : Int
  comments : Option String
  deriving DecidableEq

/-- Built index entity (`DBIndex`). -/
structure DBIndex where
  id : String
  name : String
  unique : Bool
  fieldIds : List String
  createdAt : Int
  deriving DecidableEq

/-- Built table entity (`DBTable`). -/
structure DBTable where
  id : String
  name : String
  schema : Option String
  x : ℚ
  y : ℚ
  fields : List DBField
  indexes : List DBIndex
  color : String
  isView : Bool
  createdAt : Int
  width : Option ℚ
  comments : Option String
  hidden : Option Bool
  auditable : Bool
  revisionEnabled : Bool
  deriving DecidableEq

/-- Modelled from the spec: relationship records (defined outside this core,
in the `db-relationship` module not among the provided sources) carry an id,
source/target table ids, source/target field ids and cardinalities; the
layout engine uses only the two table ids. -/
structure DBRelationship where
  id : String
  sourceTableId : String
  targetTableId : String
  sourceFieldId : String
  targetFieldId : String
  sourceCardinality : String
  targetCardinality : String
  deriving DecidableEq

/-- Modelled from the spec: the fixed neutral display color given to views
(`greyColor` from the colors module, not among the provided sources). -/
def greyColor : String := "#b0b0b0"

/-- Ambient capabilities of `createTablesFromMetadata`: `gen n` is the
result of the `n`-th `generateId()` call, `now` the (constant) `Date.now()`
timestamp, `rnd k` the `k`-th `Math.random()` result and `colorOf i` the
`randomColor()` drawn for the `i`-th table. -/
structure NormCtx where
  gen : Nat → String
  now : Int
  rnd : Nat → ℚ
  colorOf : Nat → String

/-- Normalized schema of a table descriptor (`tableSchema` in the source). -/
def tableSchemaOf (ti : TableInfo) : Option String :=
  schemaNameToDomainSchemaName ti.schema

/-- The columns whose (normalized schema, table name) match the descriptor:
the `columns.filter(...)` step of `createTablesFromMetadata`. -/
def matchingColumns (columns : List ColumnInfo) (ti : TableInfo) : List ColumnInfo :=
  columns.filter fun col =>
    schemaNameToDomainSchemaName col.schema == tableSchemaOf ti && col.table == ti.table

/-- The `uniqueColumns` JS `Map`: matching columns are inserted keyed by
column name, keeping the first occurrence; `Array.from(values())` yields the
kept columns in insertion order, which this list models directly. -/
def uniqueColumnsOf (columns : List ColumnInfo) (ti : TableInfo) : List ColumnInfo :=
  (matchingColumns columns ti).foldl
    (fun acc col => if acc.any (fun c => c.name == col.name) then acc else acc ++ [col]) []

/-- Comparison used to sort columns: ascending `ordinal_position`.  JS
`Array.prototype.sort` is stable, as is `List.insertionSort`. -/
def ordLe (a b : ColumnInfo) : Prop := a.ordinal_position ≤ b.ordinal_position

instance : DecidableRel ordLe := fun a b => inferInstanceAs (Decidable (_ ≤ _))

/-- The source's `sortedColumns`: deduplicated columns sorted by ordinal
position. -/
def sortedColumnsOf (columns : List ColumnInfo) (ti : TableInfo) : List ColumnInfo :=
  (uniqueColumnsOf columns ti).insertionSort ordLe

/-- The source's `tablePrimaryKeys`: trimmed column names of matching primary-key
descriptors. -/
def tablePrimaryKeysOf (primaryKeys : List PrimaryKeyInfo) (ti : TableInfo) : List String :=
  ((primaryKeys.filter fun pk =>
      pk.table == ti.table &&
      schemaNameToDomainSchemaName pk.schema == tableSchemaOf ti).map
    fun pk => jsTrim pk.column)

/-- The source's `tableIndexes`: raw index rows matching the descriptor. -/
def tableIndexesOf (indexes : List IndexInfo) (ti : TableInfo) : List IndexInfo :=
  indexes.filter fun idx =>
    idx.table == ti.table && schemaNameToDomainSchemaName idx.schema == tableSchemaOf ti

/-- The aggregation key of a raw index row: the template literal
`` `${idx.schema}_${idx.name}` ``. -/
def aggKey (idx : IndexInfo) : String :=
  optSchemaToStr idx.schema ++ "_" ++ idx.name

/-- Accumulated value of the `aggregatedIndexes` record: the spread copy of
the first row of the group plus the collected `(name, position)` columns. -/
structure AggIndex where
  name : String
  unique : Bool
  columns : List (String × Int)
  deriving DecidableEq

/-- One step of the `reduce` that builds `aggregatedIndexes`: create a new
record entry for a fresh key, or push one more column onto an existing one. -/
def aggStep (acc : List (String × AggIndex)) (idx : IndexInfo) : List (String × AggIndex) :=
  if acc.any (fun e => e.1 == aggKey idx) then
    acc.map fun e =>
      if e.1 == aggKey idx then
        (e.1, { e.2 with columns := e.2.columns ++ [(idx.column, idx.column_position)] })
      else e
  else
    acc ++ [(aggKey idx, ⟨idx.name, idx.unique, [(idx.column, idx.column_position)]⟩)]

/-- The source's `aggregatedIndexes`: the JS record is an association list in key
insertion order (`Object.values` preserves it for these non-numeric keys). -/
def aggregatedIndexesOf (indexes : List IndexInfo) (ti : TableInfo) : List (String × AggIndex) :=
  (tableIndexesOf indexes ti).foldl aggStep []

/-- The `unique` flag of a built field: some aggregated index is unique,
covers exactly one column, and that column is this field's name. -/
def fieldUniqueFlag (agg : List (String × AggIndex)) (colName : String) : Bool :=
  agg.any fun e =>
    e.2.unique && e.2.columns.length == 1 &&
      (match e.2.columns.head? with
       | some c => c.1 == colName
       | none => false)

/-- Truthiness normalization of an optional string (empty strings are falsy
in JS). -/
def truthyStr : Option String → Option String
  | none => none
  | some s => if s = "" then none else some s

/-- Truthiness normalization of an optional integer (`0` is falsy in JS). -/
def truthyInt : Option Int → Option Int
  | none => none
  | some n => if n = 0 then none else some n

/-- Building one `DBField` from a sorted column (the body of the
`sortedColumns.map` in the source); `idStr` is the `generateId()` result. -/
def mkField (idStr : String) (now : Int) (pks : List String)
    (agg : List (String × AggIndex)) (col : ColumnInfo) : DBField :=
  { id := idStr
    name := col.name
    type := ⟨spaceToUnderscore col.type, col.type⟩
    primaryKey := pks.contains col.name
    unique := fieldUniqueFlag agg col.name
    nullable := col.nullable
    character_maximum_length :=
      match col.character_maximum_length with
      | none => none
      | some l => if l = "" then none else if l = "null" then none else some l
    precision :=
      match col.precision with
      | none => none
      | some p => truthyInt p.precision
    scale :=
      match col.precision with
      | none => none
      | some p => truthyInt p.scale
    default := truthyStr col.default
    collation := truthyStr col.collation
    createdAt := now
    comments := truthyStr col.comment }

/-- The field list of one table.  `generateId()` calls are numbered from
`c0` in source order (one per field, in field order). -/
def mkFields (ctx : NormCtx) (c0 : Nat) (columns : List ColumnInfo)
    (primaryKeys : List PrimaryKeyInfo) (indexes : List IndexInfo) (ti : TableInfo) :
    List DBField :=
  (sortedColumnsOf columns ti).enum.map fun p =>
    mkField (ctx.gen (c0 + p.1)) ctx.now (tablePrimaryKeysOf primaryKeys ti)
      (aggregatedIndexesOf indexes ti) p.2

/-- Sorting of an aggregated index's columns by declared column position. -/
def posLe (a b : String × Int) : Prop := a.2 ≤ b.2

instance : DecidableRel posLe := fun a b => inferInstanceAs (Decidable (_ ≤ _))

/-- The `fieldIds` of one built index: columns sorted by position, resolved to
field ids by name; unresolved columns are dropped. -/
def mkFieldIds (fields : List DBField) (a : AggIndex) : List String :=
  (a.columns.insertionSort posLe).filterMap fun c =>
    (fields.find? fun fl => fl.name == c.1).map fun fl => fl.id

/-- The built `DBIndex` list of one table; `generateId()` calls are numbered
from `c0` (one per aggregated index). -/
def mkIndexes (ctx : NormCtx) (c0 : Nat) (fields : List DBField)
    (agg : List (String × AggIndex)) : List DBIndex :=
  agg.enum.map fun p =>
    { id := ctx.gen (c0 + p.1)
      name := p.2.2.name
      unique := p.2.2.unique
      fieldIds := mkFieldIds fields p.2.2
      createdAt := ctx.now }

/-- View detection: some view descriptor matches (normalized schema, name). -/
def isViewOf (views : List ViewInfo) (ti : TableInfo) : Bool :=
  views.any fun v =>
    schemaNameToDomainSchemaName v.schema == tableSchemaOf ti && v.view_name == ti.table

/-- Building one table from its descriptor (the body of the `tableInfos.map`
in the source).  `c0` is the number of `generateId()` calls made for earlier
tables and `tIdx` the index of this descriptor. -/
def buildTable (ctx : NormCtx) (c0 tIdx : Nat) (ti : TableInfo)
    (columns : List ColumnInfo) (indexes : List IndexInfo)
    (primaryKeys : List PrimaryKeyInfo) (views : List ViewInfo) : DBTable :=
  let fields := mkFields ctx c0 columns primaryKeys indexes ti
  let agg := aggregatedIndexesOf indexes ti
  let isView := isViewOf views ti
  { id := ctx.gen (c0 + fields.length + agg.length)
    name := ti.table
    schema := tableSchemaOf ti
    x := ctx.rnd (2 * tIdx) * 1000
    y := ctx.rnd (2 * tIdx + 1) * 800
    fields := fields
    indexes := mkIndexes ctx (c0 + fields.length) fields agg
    color := if isView then greyColor else ctx.colorOf tIdx
    isView := isView
    createdAt := ctx.now
    width := none
    comments := truthyStr ti.comment
    hidden := none
    auditable := ti.auditable
    revisionEnabled := ti.revisionEnabled }

/-- Number of `generateId()` calls made while building one table. -/
def idsUsed (columns : List ColumnInfo) (indexes : List IndexInfo) (ti : TableInfo) : Nat :=
  (sortedColumnsOf columns ti).length + (aggregatedIndexesOf indexes ti).length + 1

/-- Worker of `createTablesFromMetadata`, threading the table index and the
`generateId()` call counter through the descriptor list. -/
def createTablesGo (ctx : NormCtx) (columns : List ColumnInfo) (indexes : List IndexInfo)
    (primaryKeys : List PrimaryKeyInfo) (views : List ViewInfo) :
    Nat → Nat → List TableInfo → List DBTable
  | _, _, [] => []
  | tIdx, c0, ti :: rest =>
    buildTable ctx c0 tIdx ti columns indexes primaryKeys views ::
      createTablesGo ctx columns indexes primaryKeys views (tIdx + 1)
        (c0 + idsUsed columns indexes ti) rest

/-- The function `createTablesFromMetadata`: one built table per descriptor, in order. -/
def createTablesFromMetadata (ctx : NormCtx) (tableInfos : List TableInfo)
    (columns : List ColumnInfo) (indexes : List IndexInfo)
    (primaryKeys : List PrimaryKeyInfo) (views : List ViewInfo) : List DBTable :=
  createTablesGo ctx columns indexes primaryKeys views 0 0 tableInfos

/-!  The `TokenManager` credential holder.  Its single private slot
`token: string | null` is the state; `getToken` throws (`Except.error`)
when the slot is falsy, i.e. `null` or the empty string. -/

/-- The `TokenManager` state directly after construction. -/
def tokenInit : Option String := none

/-- The method `setToken(newToken)`. -/
def setToken (_st : Option String) (newToken : String) : Option String :=
  some newToken

/-- The method `clearToken()`. -/
def clearToken (_st : Option String) : Option String := none

/-- The method `getToken()`: it throws (`Except.error`) when the slot is falsy. -/
def getToken : Option String → Except String String
  | none => .error "No token set"
  | some t => if t = "" then .error "No token set" else .ok t

/-!  The layout engine `adjustTablePositions`. -/

/-- Geometry constant `tableWidth`. -/
def tableWidth : ℚ := 200
/-- Geometry constant `tableHeight`. -/
def tableHeight : ℚ := 300
/-- Geometry constant `gapX`. -/
def gapX : ℚ := 100
/-- Geometry constant `gapY`. -/
def gapY : ℚ := 100
/-- Geometry constant `startX`. -/
def startX : ℚ := 100
/-- Geometry constant `startY`. -/
def startY : ℚ := 100
/-- The spiral radius increment `spiralStep = Math.max(tableWidth, tableHeight) / 2`. -/
def spiralStep : ℚ := 150

/-- An entry of the `tablePositions` map: table id with its coordinates. -/
abbrev PosEntry := String × ℚ × ℚ

/-- The check `isOverlapping(x, y, currentTableId)`: some other registered table is
closer than `tableWidth + gapX` horizontally and `tableHeight + gapY`
vertically at the same time. -/
def isOverlapping (posMap : List PosEntry) (x y : ℚ) (currentTableId : String) : Bool :=
  posMap.any fun e =>
    !(e.1 == currentTableId) &&
      decide (|x - e.2.1| < tableWidth + gapX) &&
      decide (|y - e.2.2| < tableHeight + gapY)

/-- One bookkeeping step of the spiral: `angle += π/4` (an eighth of a
turn), and on a full sweep reset the angle and grow the radius. -/
def spiralAdvance (s : ℚ × ℚ) : ℚ × ℚ :=
  if (1 : ℚ) ≤ s.1 + 1/8 then (0, s.2 + spiralStep) else (s.1 + 1/8, s.2)

/-- The candidate point of a spiral state around `(baseX, baseY)`. -/
def spiralPoint (cosA sinA : ℚ → ℚ) (baseX baseY : ℚ) (s : ℚ × ℚ) : ℚ × ℚ :=
  (baseX + s.2 * cosA s.1, baseY + s.2 * sinA s.1)

/-- The `while (iterations < maxIterations)` loop of
`findNonOverlappingPosition`, with the remaining iteration budget as fuel.
Returns the chosen point and `true` iff the iteration cap was exhausted
(the instrumented flag does not influence any computed position). -/
def findLoop (cosA sinA : ℚ → ℚ) (posMap : List PosEntry) (tableId : String)
    (baseX baseY : ℚ) : Nat → ℚ × ℚ → (ℚ × ℚ) × Bool
  | 0, s => (spiralPoint cosA sinA baseX baseY s, true)
  | Nat.succ n, s =>
    if isOverlapping posMap (spiralPoint cosA sinA baseX baseY s).1
        (spiralPoint cosA sinA baseX baseY s).2 tableId then
      findLoop cosA sinA posMap tableId baseX baseY n (spiralAdvance s)
    else (spiralPoint cosA sinA baseX baseY s, false)

/-- The search `findNonOverlappingPosition(baseX, baseY, tableId)` with its
`maxIterations = 1000` budget, starting at angle 0 and radius 0. -/
def findNonOverlappingPosition (cosA sinA : ℚ → ℚ) (posMap : List PosEntry)
    (tableId : String) (baseX baseY : ℚ) : (ℚ × ℚ) × Bool :=
  findLoop cosA sinA posMap tableId baseX baseY 1000 (0, 0)

/-- Mutable state of one `adjustTablePositions` run: the `positionedTables`
set, the `tablePositions` map (newest entry first), and — as ghost
instrumentation — the ids whose spiral search exhausted its cap. -/
structure LState where
  placed : List String
  posMap : List PosEntry
  exhausted : List String
  deriving DecidableEq

/-- Initial layout state. -/
def initState : LState := ⟨[], [], []⟩

/-- Undirected adjacency lists (`tableConnections`), as an association list
in key insertion order with neighbor lists in insertion order (JS `Map` of
`Set`s). -/
abbrev ConnMap := List (String × List String)

/-- Ensure a key exists in the connection map (`if (!map.has(k)) set(k, ∅)`). -/
def connEnsure (m : ConnMap) (k : String) : ConnMap :=
  if m.any (fun e => e.1 == k) then m else m ++ [(k, [])]

/-- The update `map.get(k).add(v)` on the connection map. -/
def connAdd (m : ConnMap) (k v : String) : ConnMap :=
  m.map fun e =>
    if e.1 == k then (e.1, if e.2.contains v then e.2 else e.2 ++ [v]) else e

/-- Build `tableConnections` from the filtered relationships. -/
def buildConns (rels : List DBRelationship) : ConnMap :=
  rels.foldl
    (fun m rel =>
      connAdd
        (connAdd (connEnsure (connEnsure m rel.sourceTableId) rel.targetTableId)
          rel.sourceTableId rel.targetTableId)
        rel.targetTableId rel.sourceTableId)
    []

/-- The lookup `tableConnections.get(id) || new Set()`. -/
def connsLookup (m : ConnMap) (k : String) : List String :=
  match m.find? (fun e => e.1 == k) with
  | some e => e.2
  | none => []

/-- Neighbor count used by the connectivity sort
(`tableConnections.get(id)?.size || 0`). -/
def connCount (m : ConnMap) (k : String) : Nat := (connsLookup m k).length

/-- Comparison of the connectivity sort: descending neighbor count.  JS
`sort((a, b) => cb - ca)` is stable, as is `List.insertionSort`. -/
def connDesc (m : ConnMap) (a b : DBTable) : Prop := connCount m b.id ≤ connCount m a.id

instance (m : ConnMap) : DecidableRel (connDesc m) :=
  fun a b => inferInstanceAs (Decidable (_ ≤ _))

/-- One neighbor step of the radiation `forEach`: skip already-placed or
unknown neighbors; otherwise place the neighbor (through `recur`, the
recursive call at the remaining fuel) at the angular offset and advance the
angle. -/
def childFold (tables : List DBTable) (cosA sinA : ℚ → ℚ)
    (recur : LState → DBTable → ℚ → ℚ → LState) (px py step : ℚ)
    (acc : LState × ℚ) (cid : String) : LState × ℚ :=
  if acc.1.placed.contains cid then acc
  else
    match tables.find? (fun tt => tt.id == cid) with
    | none => acc
    | some ct =>
      (recur acc.1 ct (px + cosA acc.2 * (tableWidth + gapX * 2))
         (py + sinA acc.2 * (tableHeight + gapY * 2)),
       acc.2 + step)

/-- The body of `positionTable(table, baseX, baseY)` with the recursive call
abstracted as `recur`: place the table via the spiral search, then radiate
its not-yet-placed neighbors at evenly spread angles. -/
def ptBody (tables : List DBTable) (conns : ConnMap) (cosA sinA : ℚ → ℚ)
    (recur : LState → DBTable → ℚ → ℚ → LState)
    (st : LState) (t : DBTable) (baseX baseY : ℚ) : LState :=
  if st.placed.contains t.id then st
  else
    ((connsLookup conns t.id).foldl
      (childFold tables cosA sinA recur
        (findNonOverlappingPosition cosA sinA st.posMap t.id baseX baseY).1.1
        (findNonOverlappingPosition cosA sinA st.posMap t.id baseX baseY).1.2
        (if (connsLookup conns t.id).length = 0 then 0
         else 1 / ((connsLookup conns t.id).length : ℚ)))
      (⟨t.id :: st.placed,
        (t.id, (findNonOverlappingPosition cosA sinA st.posMap t.id baseX baseY).1) :: st.posMap,
        if (findNonOverlappingPosition cosA sinA st.posMap t.id baseX baseY).2 then
          t.id :: st.exhausted else st.exhausted⟩, 0)).1

/-- The procedure `positionTable(table, baseX, baseY)`.  The fuel bounds the depth of the
recursive neighbor walk; `tables.length + 1` always suffices (see the
termination theorems). -/
def positionTable (tables : List DBTable) (conns : ConnMap) (cosA sinA : ℚ → ℚ) :
    Nat → LState → DBTable → ℚ → ℚ → LState
  | 0, st, _, _, _ => st
  | Nat.succ f, st, t, baseX, baseY =>
    ptBody tables conns cosA sinA (positionTable tables conns cosA sinA f) st t baseX baseY

/-- The grid-cell base position of cluster seed number `index`
(`col = index % 6`, `row = ⌊index / 6⌋`). -/
def seedX (index : Nat) : ℚ := startX + (index % 6 : Nat) * (tableWidth + gapX * 2)

/-- Vertical coordinate of cluster seed number `index`. -/
def seedY (index : Nat) : ℚ := startY + (index / 6 : Nat) * (tableHeight + gapY * 2)

/-- The `sortedTables.forEach((table, index) => ...)` seeding loop. -/
def seedLoop (tables : List DBTable) (conns : ConnMap) (cosA sinA : ℚ → ℚ) (fuel : Nat) :
    Nat → LState → List DBTable → LState
  | _, st, [] => st
  | index, st, t :: rest =>
    seedLoop tables conns cosA sinA fuel (index + 1)
      (if st.placed.contains t.id then st
       else positionTable tables conns cosA sinA fuel st t (seedX index) (seedY index))
      rest

/-- The final layout state of one `adjustTablePositions` run with an
explicit fuel for the neighbor recursion. -/
def layoutFuelRun (cosA sinA : ℚ → ℚ) (fuel : Nat) (tables : List DBTable)
    (relationships : List DBRelationship) : LState :=
  seedLoop tables
    (buildConns (relationships.filter fun rel =>
      tables.any (fun t => t.id == rel.sourceTableId) &&
        tables.any (fun t => t.id == rel.targetTableId)))
    cosA sinA fuel 0 initState
    (tables.insertionSort (connDesc (buildConns (relationships.filter fun rel =>
      tables.any (fun t => t.id == rel.sourceTableId) &&
        tables.any (fun t => t.id == rel.targetTableId)))))

/-- The final layout state of `adjustTablePositions` (fuel
`tables.length + 1`, which the termination theorem shows is enough). -/
def layoutRun (cosA sinA : ℚ → ℚ) (tables : List DBTable)
    (relationships : List DBRelationship) : LState :=
  layoutFuelRun cosA sinA (tables.length + 1) tables relationships

/-- Applying the computed positions back onto the table collection. -/
def applyPositions (posMap : List PosEntry) (tables : List DBTable) : List DBTable :=
  tables.map fun t =>
    match posMap.find? (fun e => e.1 == t.id) with
    | some e => { t with x := e.2.1, y := e.2.2 }
    | none => t

/-- The entry point `adjustTablePositions({relationships, tables})`. -/
def adjustTablePositions (cosA sinA : ℚ → ℚ) (tables : List DBTable)
    (relationships : List DBRelationship) : List DBTable :=
  applyPositions (layoutRun cosA sinA tables relationships).posMap tables

/-!  Specification-side definitions, used to compare the code against the
spec's wording. -/

/-- Spec wording of column deduplication: keep a column iff its name was not
seen before, scanning in raw input order. -/
def dedupByNameAux (seen : List String) : List ColumnInfo → List ColumnInfo
  | [] => []
  | c :: cs =>
    if seen.contains c.name then dedupByNameAux seen cs
    else c :: dedupByNameAux (c.name :: seen) cs

/-- Spec wording: "deduplicate by column name, keeping the first occurrence
encountered". -/
def dedupFirstByName (cs : List ColumnInfo) : List ColumnInfo :=
  dedupByNameAux [] cs

/-- Iterated spiral bookkeeping: the angle/radius state after `n` advances. -/
def spiralAdvanceN : Nat → ℚ × ℚ → ℚ × ℚ
  | 0, s => s
  | Nat.succ n, s => spiralAdvanceN n (spiralAdvance s)

/-!  ## Helper lemmas: metadata normalizer -/

theorem createTablesGo_length (ctx : NormCtx) (cols : List ColumnInfo)
    (idxs : List IndexInfo) (pks : List PrimaryKeyInfo) (vws : List ViewInfo) :
    ∀ (tis : List TableInfo) (tIdx c0 : Nat),
      (createTablesGo ctx cols idxs pks vws tIdx c0 tis).length = tis.length := by
  intro tis
  induction tis with
  | nil => intro tIdx c0; rfl
  | cons ti rest ih => intro tIdx c0; simp [createTablesGo, ih]

theorem createTablesFromMetadata_length (ctx : NormCtx) (tis : List TableInfo)
    (cols : List ColumnInfo) (idxs : List IndexInfo) (pks : List PrimaryKeyInfo)
    (vws : List ViewInfo) :
    (createTablesFromMetadata ctx tis cols idxs pks vws).length = tis.length :=
  createTablesGo_length ctx cols idxs pks vws tis 0 0

theorem createTablesGo_get (ctx : NormCtx) (cols : List ColumnInfo)
    (idxs : List IndexInfo) (pks : List PrimaryKeyInfo) (vws : List ViewInfo) :
    ∀ (tis : List TableInfo) (tIdx c0 i : Nat) (h : i < tis.length)
      (h2 : i < (createTablesGo ctx cols idxs pks vws tIdx c0 tis).length),
      ∃ c, (createTablesGo ctx cols idxs pks vws tIdx c0 tis).get ⟨i, h2⟩ =
        buildTable ctx c (tIdx + i) (tis.get ⟨i, h⟩) cols idxs pks vws := by
  intro tis
  induction tis with
  | nil => intro tIdx c0 i h h2; exact absurd h (by simp)
  | cons ti rest ih =>
    intro tIdx c0 i h h2
    match i with
    | 0 => exact ⟨c0, rfl⟩
    | Nat.succ j =>
      have hj : j < rest.length := by simpa using h
      have hj2 : j < (createTablesGo ctx cols idxs pks vws (tIdx + 1)
          (c0 + idsUsed cols idxs ti) rest).length := by
        rw [createTablesGo_length]; exact hj
      obtain ⟨c, hc⟩ := ih (tIdx + 1) (c0 + idsUsed cols idxs ti) j hj hj2
      refine ⟨c, ?_⟩
      have : tIdx + 1 + j = tIdx + (j + 1) := by omega
      rw [← this]
      simpa [createTablesGo] using hc

theorem createTablesFromMetadata_get (ctx : NormCtx) (tis : List TableInfo)
    (cols : List ColumnInfo) (idxs : List IndexInfo) (pks : List PrimaryKeyInfo)
    (vws : List ViewInfo) (i : Nat) (h : i < tis.length)
    (h2 : i < (createTablesFromMetadata ctx tis cols idxs pks vws).length) :
    ∃ c, (createTablesFromMetadata ctx tis cols idxs pks vws).get ⟨i, h2⟩ =
      buildTable ctx c i (tis.get ⟨i, h⟩) cols idxs pks vws := by
  have := createTablesGo_get ctx cols idxs pks vws tis 0 0 i h h2
  simpa using this

theorem createTablesFromMetadata_getElem? (ctx : NormCtx) (tis : List TableInfo)
    (cols : List ColumnInfo) (idxs : List IndexInfo) (pks : List PrimaryKeyInfo)
    (vws : List ViewInfo) (i : Nat) (h : i < tis.length) (tbl : DBTable)
    (hsome : (createTablesFromMetadata ctx tis cols idxs pks vws)[i]? = some tbl) :
    ∃ c, tbl = buildTable ctx c i (tis.get ⟨i, h⟩) cols idxs pks vws := by
  have h2 : i < (createTablesFromMetadata ctx tis cols idxs pks vws).length := by
    rw [createTablesFromMetadata_length]; exact h
  obtain ⟨c, hc⟩ := createTablesFromMetadata_get ctx tis cols idxs pks vws i h h2
  refine ⟨c, ?_⟩
  rw [List.getElem?_eq_getElem h2] at hsome
  have : tbl = (createTablesFromMetadata ctx tis cols idxs pks vws).get ⟨i, h2⟩ := by
    simpa [List.get_eq_getElem] using hsome.symm
  rw [this, hc]

/-!  ## Shared concrete fixtures for witnesses and counterexamples -/

/-- A deterministic capability context for concrete runs. -/
def exCtx : NormCtx := ⟨fun n => "id" ++ toString n, 0, fun _ => 0, fun _ => "#c0ffee"⟩

/-- A plain table descriptor without schema or comment. -/
def exTI : TableInfo := ⟨none, "t", none, false, false⟩

/-- A column descriptor of table `t` with the given name and ordinal. -/
def exCol (nm : String) (ord : Int) : ColumnInfo :=
  ⟨none, "t", nm, ord, "int", true, none, none, none, none, none⟩

/-- A bare table entity with the given id, for layout-engine runs. -/
def exTbl (i : String) : DBTable :=
  ⟨i, i, none, 0, 0, [], [], "#c0ffee", false, 0, none, none, none, false, false⟩

/-!  ## C9: token manager -/

/-- C9, counterexample: the claim quantifies over every token value `t`, but
after `setToken("")` the subsequent `getToken` still throws, because the
empty string is falsy in the `if (!this.token)` guard. -/
theorem C9_counterexample :
    getToken (setToken tokenInit "") = Except.error "No token set" := rfl

/-- C9 (amended): `getToken` throws before any `setToken` call and again
after `clearToken`, and for every nonempty token value `t`, after
`setToken(t)` a subsequent `getToken` returns `t` without throwing. -/
theorem C9_token_semantics :
    getToken tokenInit = Except.error "No token set" ∧
    (∀ st, getToken (clearToken st) = Except.error "No token set") ∧
    (∀ st t, t ≠ "" → getToken (setToken st t) = Except.ok t) := by
  refine ⟨rfl, fun st => rfl, fun st t ht => ?_⟩
  simp [setToken, getToken, ht]

/-- Witness for C9 at the concrete token `"secret"` after a set/clear/set
history. -/
theorem C9_token_semantics_witness :
    getToken (setToken (clearToken (setToken tokenInit "a")) "secret") =
      Except.ok "secret" :=
  C9_token_semantics.2.2 (clearToken (setToken tokenInit "a")) "secret" (by decide)

/-!  ## C3: the layout engine only changes positions -/

/-- C3: `adjustTablePositions` returns one table per input table, in input
order, and the `i`-th output table agrees with the `i`-th input table on
`id`, `name`, `schema`, `fields`, `indexes`, `color`, `isView`, `createdAt`,
`auditable` and `revisionEnabled` — only `x` and `y` may change.  (In this
pure embedding the caller's lists cannot be mutated at all; the source
additionally deep-copies its inputs before touching them.) -/
theorem C3_positions_only_change :
    ∀ (cosA sinA : ℚ → ℚ) (tables : List DBTable) (rels : List DBRelationship),
      (adjustTablePositions cosA sinA tables rels).length = tables.length ∧
      ∀ (i : Nat) (h : i < tables.length) (tbl : DBTable),
        (adjustTablePositions cosA sinA tables rels)[i]? = some tbl →
        tbl.id = (tables.get ⟨i, h⟩).id ∧
        tbl.name = (tables.get ⟨i, h⟩).name ∧
        tbl.schema = (tables.get ⟨i, h⟩).schema ∧
        tbl.fields = (tables.get ⟨i, h⟩).fields ∧
        tbl.indexes = (tables.get ⟨i, h⟩).indexes ∧
        tbl.color = (tables.get ⟨i, h⟩).color ∧
        tbl.isView = (tables.get ⟨i, h⟩).isView ∧
        tbl.createdAt = (tables.get ⟨i, h⟩).createdAt ∧
        tbl.auditable = (tables.get ⟨i, h⟩).auditable ∧
        tbl.revisionEnabled = (tables.get ⟨i, h⟩).revisionEnabled := by
  intro cosA sinA tables rels
  constructor
  · simp [adjustTablePositions, applyPositions]
  · intro i h tbl hsome
    rw [adjustTablePositions, applyPositions, List.getElem?_map,
      List.getElem?_eq_getElem h] at hsome
    simp only [Option.map_some'] at hsome
    rw [List.get_eq_getElem]
    cases hfind : (layoutRun cosA sinA tables rels).posMap.find?
        (fun e => e.1 == tables[i].id) with
    | none => rw [hfind] at hsome; cases hsome; exact ⟨rfl, rfl, rfl, rfl, rfl, rfl, rfl, rfl, rfl, rfl⟩
    | some e => rw [hfind] at hsome; cases hsome; exact ⟨rfl, rfl, rfl, rfl, rfl, rfl, rfl, rfl, rfl, rfl⟩

/-- The second table of the concrete two-table layout run, as returned by
`adjustTablePositions`: only its position moved (to the second grid seed). -/
def exTblB : DBTable :=
  ⟨"b", "b", none, 500, 100, [], [], "#c0ffee", false, 0, none, none, none, false, false⟩

set_option maxRecDepth 80000 in
/-- Witness for C3 on a concrete two-table layout run. -/
theorem C3_positions_only_change_witness :
    (adjustTablePositions (fun _ => 0) (fun _ => 0) [exTbl "a", exTbl "b"] []).length = 2 ∧
    (adjustTablePositions (fun _ => 0) (fun _ => 0) [exTbl "a", exTbl "b"] [])[1]? = some exTblB ∧
    exTblB.id = "b" ∧ exTblB.fields = [] := by
  have h := C3_positions_only_change (fun _ => 0) (fun _ => 0) [exTbl "a", exTbl "b"] []
  have hsome : (adjustTablePositions (fun _ => 0) (fun _ => 0) [exTbl "a", exTbl "b"] [])[1]? =
      some exTblB := of_decide_eq_true (by with_unfolding_all rfl)
  have h2 := h.2 1 (by decide) exTblB hsome
  exact ⟨h.1, hsome, h2.1.trans rfl, h2.2.2.2.1.trans rfl⟩

/-!  ## C10: one output table per descriptor -/

/-- C10, counterexample: a descriptor whose `comment` is the empty string is
not carried through — JS truthiness drops it, so the built table has no
comment even though the descriptor has one. -/
theorem C10_counterexample :
    ((createTablesFromMetadata exCtx [⟨none, "t", some "", true, false⟩] [] [] [] []).map
      (fun t => t.comments)) = [none] ∧
    (⟨none, "t", some "", true, false⟩ : TableInfo).comment = some "" ∧
    (some "" : Option String) ≠ (none : Option String) :=
  ⟨of_decide_eq_true (by with_unfolding_all rfl), rfl, by decide⟩

/-- C10 (amended): `createTablesFromMetadata` returns exactly one table per
descriptor, in input order; the `i`-th output table carries the `i`-th
descriptor's table name, normalized schema, `auditable` and
`revisionEnabled` values, and its comment whenever the comment is present
and nonempty (absent or empty comments become an absent comment) — even for
descriptors with zero matching columns. -/
theorem C10_table_per_descriptor :
    ∀ (ctx : NormCtx) (tis : List TableInfo) (cols : List ColumnInfo)
      (idxs : List IndexInfo) (pks : List PrimaryKeyInfo) (vws : List ViewInfo),
      (createTablesFromMetadata ctx tis cols idxs pks vws).length = tis.length ∧
      ∀ (i : Nat) (h : i < tis.length) (tbl : DBTable),
        (createTablesFromMetadata ctx tis cols idxs pks vws)[i]? = some tbl →
        tbl.name = (tis.get ⟨i, h⟩).table ∧
        tbl.schema = tableSchemaOf (tis.get ⟨i, h⟩) ∧
        tbl.comments = truthyStr (tis.get ⟨i, h⟩).comment ∧
        tbl.auditable = (tis.get ⟨i, h⟩).auditable ∧
        tbl.revisionEnabled = (tis.get ⟨i, h⟩).revisionEnabled := by
  intro ctx tis cols idxs pks vws
  refine ⟨createTablesFromMetadata_length ctx tis cols idxs pks vws, ?_⟩
  intro i h tbl hsome
  obtain ⟨c, hc⟩ := createTablesFromMetadata_getElem? ctx tis cols idxs pks vws i h tbl hsome
  rw [hc]
  exact ⟨rfl, rfl, rfl, rfl, rfl⟩

/-- The table built from the zero-column descriptor used in the C10
witness. -/
def exTblTT : DBTable :=
  ⟨"id0", "tt", some "s", 0, 0, [], [], "#c0ffee", false, 0, none, some "hello", none,
   true, true⟩

/-- Witness for C10 on a one-descriptor input with zero matching columns. -/
theorem C10_table_per_descriptor_witness :
    (createTablesFromMetadata exCtx [⟨some "s", "tt", some "hello", true, true⟩] [] [] [] []).length = 1 ∧
    (createTablesFromMetadata exCtx [⟨some "s", "tt", some "hello", true, true⟩] [] [] [] [])[0]? =
      some exTblTT ∧
    exTblTT.name = "tt" ∧ exTblTT.schema = some "s" ∧ exTblTT.comments = some "hello" ∧
    exTblTT.auditable = true ∧ exTblTT.revisionEnabled = true := by
  have h := C10_table_per_descriptor exCtx [⟨some "s", "tt", some "hello", true, true⟩] [] [] [] []
  have hsome : (createTablesFromMetadata exCtx
      [⟨some "s", "tt", some "hello", true, true⟩] [] [] [] [])[0]? = some exTblTT :=
    of_decide_eq_true (by with_unfolding_all rfl)
  have h2 := h.2 0 (by decide) exTblTT hsome
  exact ⟨h.1, hsome, h2.1.trans rfl, h2.2.1.trans rfl, h2.2.2.1.trans rfl,
    h2.2.2.2.1.trans rfl, h2.2.2.2.2.trans rfl⟩

/-!  ## C7: primary-key flag -/

/-- C7, counterexample: a column literally named `" z"` whose table has a
primary-key descriptor naming `"z"`.  The trimmed field name does appear
among the (trimmed) primary-key columns, yet the built field is not marked
`primaryKey`, because the source compares the untrimmed column name. -/
theorem C7_counterexample :
    ((createTablesFromMetadata exCtx [exTI] [exCol " z" 1] [] [⟨none, "t", "z"⟩] []).map
      (fun t => t.fields.map (fun f => f.primaryKey))) = [[false]] ∧
    jsTrim " z" ∈ tablePrimaryKeysOf [⟨none, "t", "z"⟩] exTI :=
  ⟨of_decide_eq_true (by with_unfolding_all rfl),
   of_decide_eq_true (by with_unfolding_all rfl)⟩

/-- C7 (amended): a built field's `primaryKey` flag is true iff the field's
exact (untrimmed) name appears among the primary-key descriptor columns
(themselves trimmed) for the same (normalized schema, table). -/
theorem C7_primary_key_flag :
    ∀ (ctx : NormCtx) (tis : List TableInfo) (cols : List ColumnInfo)
      (idxs : List IndexInfo) (pks : List PrimaryKeyInfo) (vws : List ViewInfo)
      (i : Nat) (h : i < tis.length) (tbl : DBTable),
      (createTablesFromMetadata ctx tis cols idxs pks vws)[i]? = some tbl →
      ∀ fl ∈ tbl.fields,
        (fl.primaryKey = true ↔ fl.name ∈ tablePrimaryKeysOf pks (tis.get ⟨i, h⟩)) := by
  intro ctx tis cols idxs pks vws i h tbl hsome fl hfl
  obtain ⟨c, hc⟩ := createTablesFromMetadata_getElem? ctx tis cols idxs pks vws i h tbl hsome
  subst hc
  have hfl' : fl ∈ mkFields ctx c cols pks idxs (tis.get ⟨i, h⟩) := hfl
  rw [mkFields, List.mem_map] at hfl'
  obtain ⟨p, _, hp⟩ := hfl'
  subst hp
  simp only [mkField]
  exact List.elem_iff

/-- The field built from column `z` in the C7 witness run. -/
def exFZ : DBField :=
  ⟨"id0", "z", ⟨"int", "int"⟩, true, false, true, none, none, none, none, none, 0, none⟩

/-- The table built in the C7 witness run. -/
def exTblZ : DBTable :=
  ⟨"id1", "t", none, 0, 0, [exFZ], [], "#c0ffee", false, 0, none, none, none, false, false⟩

/-!  ## C4: field list selection, dedup and ordering -/

theorem names_contains (acc : List ColumnInfo) (nm : String) :
    (acc.map (fun c => c.name)).contains nm = acc.any (fun c => c.name == nm) := by
  induction acc with
  | nil => rfl
  | cons a l ih =>
    simp only [List.map_cons, List.contains_cons, List.any_cons, ih]
    congr 1
    rw [Bool.eq_iff_iff]
    constructor
    · intro hx; exact beq_iff_eq.mpr (beq_iff_eq.mp hx).symm
    · intro hx; exact beq_iff_eq.mpr (beq_iff_eq.mp hx).symm

theorem dedupByNameAux_congr (cs : List ColumnInfo) :
    ∀ seen₁ seen₂ : List String, (∀ s, s ∈ seen₁ ↔ s ∈ seen₂) →
      dedupByNameAux seen₁ cs = dedupByNameAux seen₂ cs := by
  induction cs with
  | nil => intro seen₁ seen₂ _; rfl
  | cons c cs ih =>
    intro seen₁ seen₂ hmem
    have hcont : seen₁.contains c.name = seen₂.contains c.name := by
      rw [Bool.eq_iff_iff]
      constructor
      · intro hx; exact List.elem_iff.mpr ((hmem c.name).mp (List.elem_iff.mp hx))
      · intro hx; exact List.elem_iff.mpr ((hmem c.name).mpr (List.elem_iff.mp hx))
    rw [dedupByNameAux, dedupByNameAux, hcont]
    cases h2 : seen₂.contains c.name with
    | true => rw [if_pos rfl, if_pos rfl]; exact ih seen₁ seen₂ hmem
    | false =>
      rw [if_neg Bool.false_ne_true, if_neg Bool.false_ne_true,
        ih (c.name :: seen₁) (c.name :: seen₂) (by intro s; simp [hmem s])]

theorem foldl_dedup (cs : List ColumnInfo) :
    ∀ acc : List ColumnInfo,
      cs.foldl (fun acc col =>
        if acc.any (fun c => c.name == col.name) then acc else acc ++ [col]) acc =
      acc ++ dedupByNameAux (acc.map (fun c => c.name)) cs := by
  induction cs with
  | nil => intro acc; simp [dedupByNameAux]
  | cons c cs ih =>
    intro acc
    rw [List.foldl_cons, dedupByNameAux, names_contains acc c.name]
    cases hc : acc.any (fun x => x.name == c.name) with
    | true => rw [if_pos rfl, if_pos rfl]; exact ih acc
    | false =>
      rw [if_neg Bool.false_ne_true, if_neg Bool.false_ne_true, ih (acc ++ [c])]
      have hseen : dedupByNameAux ((acc ++ [c]).map (fun x => x.name)) cs =
          dedupByNameAux (c.name :: acc.map (fun x => x.name)) cs := by
        apply dedupByNameAux_congr
        intro s; simp [or_comm]
      rw [hseen]
      simp

theorem uniqueColumns_eq_dedupFirst (cols : List ColumnInfo) (ti : TableInfo) :
    uniqueColumnsOf cols ti = dedupFirstByName (matchingColumns cols ti) := by
  rw [uniqueColumnsOf, foldl_dedup]
  rfl

instance : IsTotal ColumnInfo ordLe := ⟨fun a b => le_total a.ordinal_position b.ordinal_position⟩

instance : IsTrans ColumnInfo ordLe := ⟨fun _ _ _ hab hbc => le_trans hab hbc⟩

theorem mkFields_names (ctx : NormCtx) (c0 : Nat) (cols : List ColumnInfo)
    (pks : List PrimaryKeyInfo) (idxs : List IndexInfo) (ti : TableInfo) :
    (mkFields ctx c0 cols pks idxs ti).map (fun f => f.name) =
      (sortedColumnsOf cols ti).map (fun c => c.name) := by
  rw [mkFields, List.map_map]
  have : ((fun f => f.name) ∘ fun p : Nat × ColumnInfo =>
      mkField (ctx.gen (c0 + p.1)) ctx.now (tablePrimaryKeysOf pks ti)
        (aggregatedIndexesOf idxs ti) p.2) =
      (fun c : ColumnInfo => c.name) ∘ (fun p : Nat × ColumnInfo => p.2) := rfl
  rw [this, ← List.map_map, List.enum_map_snd]

/-- C4: a built table's field list is exactly the matching columns,
deduplicated by name keeping the first occurrence in raw order, then stably
sorted ascending by ordinal position: field names coincide with the names
of the sorted deduplication, the sorted column list is pairwise ordered by
ordinal position and is a permutation of the deduplication; in particular
ordinals `[3,1,2]` under names `[c,a,b]` yield the field order `[a,b,c]`,
and two same-named rows yield one field built from the first row. -/
theorem C4_field_list :
    (∀ (ctx : NormCtx) (tis : List TableInfo) (cols : List ColumnInfo)
       (idxs : List IndexInfo) (pks : List PrimaryKeyInfo) (vws : List ViewInfo)
       (i : Nat) (h : i < tis.length) (tbl : DBTable),
       (createTablesFromMetadata ctx tis cols idxs pks vws)[i]? = some tbl →
       tbl.fields.map (fun f => f.name) =
         ((dedupFirstByName (matchingColumns cols (tis.get ⟨i, h⟩))).insertionSort
           ordLe).map (fun c => c.name) ∧
       (sortedColumnsOf cols (tis.get ⟨i, h⟩)).Pairwise ordLe ∧
       (sortedColumnsOf cols (tis.get ⟨i, h⟩)).Perm
         (dedupFirstByName (matchingColumns cols (tis.get ⟨i, h⟩)))) ∧
    ((createTablesFromMetadata exCtx [exTI] [exCol "c" 3, exCol "a" 1, exCol "b" 2] [] [] []).map
      (fun t => t.fields.map (fun f => f.name))) = [["a", "b", "c"]] ∧
    ((createTablesFromMetadata exCtx [exTI]
        [⟨none, "t", "d", 5, "int", true, none, none, none, none, none⟩,
         ⟨none, "t", "d", 1, "int", false, none, none, none, none, none⟩] [] [] []).map
      (fun t => t.fields.map (fun f => (f.name, f.nullable)))) = [[("d", true)]] := by
  refine ⟨?_, of_decide_eq_true (by with_unfolding_all rfl),
    of_decide_eq_true (by with_unfolding_all rfl)⟩
  intro ctx tis cols idxs pks vws i h tbl hsome
  obtain ⟨c, hc⟩ := createTablesFromMetadata_getElem? ctx tis cols idxs pks vws i h tbl hsome
  subst hc
  refine ⟨?_, ?_, ?_⟩
  · show (mkFields ctx c cols pks idxs (tis.get ⟨i, h⟩)).map (fun f => f.name) = _
    rw [mkFields_names, sortedColumnsOf, uniqueColumns_eq_dedupFirst]
  · exact List.sorted_insertionSort ordLe (uniqueColumnsOf cols (tis.get ⟨i, h⟩))
  · rw [sortedColumnsOf, uniqueColumns_eq_dedupFirst]
    exact List.perm_insertionSort ordLe _

/-- A field of the C4 witness table. -/
def exFNm (idStr nm : String) : DBField :=
  ⟨idStr, nm, ⟨"int", "int"⟩, false, false, true, none, none, none, none, none, 0, none⟩

/-- The table built in the C4 witness run (columns `c,a,b` with ordinals
`3,1,2`). -/
def exTblABC : DBTable :=
  ⟨"id3", "t", none, 0, 0, [exFNm "id0" "a", exFNm "id1" "b", exFNm "id2" "c"], [],
   "#c0ffee", false, 0, none, none, none, false, false⟩

/-- Witness for C4 on the `[3,1,2]`-ordinal input. -/
theorem C4_field_list_witness :
    (createTablesFromMetadata exCtx [exTI] [exCol "c" 3, exCol "a" 1, exCol "b" 2] [] [] [])[0]? =
      some exTblABC ∧
    exTblABC.fields.map (fun f => f.name) =
      ((dedupFirstByName (matchingColumns [exCol "c" 3, exCol "a" 1, exCol "b" 2] exTI)).insertionSort
        ordLe).map (fun c => c.name) := by
  have hsome : (createTablesFromMetadata exCtx [exTI]
      [exCol "c" 3, exCol "a" 1, exCol "b" 2] [] [] [])[0]? = some exTblABC :=
    of_decide_eq_true (by with_unfolding_all rfl)
  exact ⟨hsome,
    (C4_field_list.1 exCtx [exTI] [exCol "c" 3, exCol "a" 1, exCol "b" 2] [] [] [] 0
      (by decide) exTblABC hsome).1⟩

/-!  ## C5: field uniqueness from single-column unique indexes -/

/-- A raw index row of table `t`. -/
def exIdx (nm col : String) (uq : Bool) (pos : Int) : IndexInfo :=
  ⟨none, "t", nm, col, uq, pos⟩

/-- C5: a built field's `unique` flag is true iff some aggregated index of
the same table is unique and aggregates to exactly one column whose name is
this field's name; in particular a 2-column unique index over `(x, y)`
leaves both `x.unique` and `y.unique` false, while a 1-column unique index
over `(z)` sets `z.unique` true. -/
theorem C5_unique_flag :
    (∀ (ctx : NormCtx) (tis : List TableInfo) (cols : List ColumnInfo)
       (idxs : List IndexInfo) (pks : List PrimaryKeyInfo) (vws : List ViewInfo)
       (i : Nat) (h : i < tis.length) (tbl : DBTable),
       (createTablesFromMetadata ctx tis cols idxs pks vws)[i]? = some tbl →
       ∀ fl ∈ tbl.fields,
         (fl.unique = true ↔
           ∃ e ∈ aggregatedIndexesOf idxs (tis.get ⟨i, h⟩),
             e.2.unique = true ∧ ∃ pos, e.2.columns = [(fl.name, pos)])) ∧
    ((createTablesFromMetadata exCtx [exTI] [exCol "x" 1, exCol "y" 2, exCol "z" 3]
        [exIdx "u1" "x" true 1, exIdx "u1" "y" true 2, exIdx "u2" "z" true 1] [] []).map
      (fun t => t.fields.map (fun f => (f.name, f.unique)))) =
      [[("x", false), ("y", false), ("z", true)]] := by
  constructor
  · intro ctx tis cols idxs pks vws i h tbl hsome fl hfl
    obtain ⟨c, hc⟩ := createTablesFromMetadata_getElem? ctx tis cols idxs pks vws i h tbl hsome
    subst hc
    have hfl' : fl ∈ mkFields ctx c cols pks idxs (tis.get ⟨i, h⟩) := hfl
    rw [mkFields, List.mem_map] at hfl'
    obtain ⟨p, _, hp⟩ := hfl'
    subst hp
    have hname : (mkField (ctx.gen (c + p.1)) ctx.now (tablePrimaryKeysOf pks (tis.get ⟨i, h⟩))
        (aggregatedIndexesOf idxs (tis.get ⟨i, h⟩)) p.2).name = p.2.name := rfl
    have huniq : (mkField (ctx.gen (c + p.1)) ctx.now (tablePrimaryKeysOf pks (tis.get ⟨i, h⟩))
        (aggregatedIndexesOf idxs (tis.get ⟨i, h⟩)) p.2).unique =
        fieldUniqueFlag (aggregatedIndexesOf idxs (tis.get ⟨i, h⟩)) p.2.name := rfl
    rw [hname, huniq, fieldUniqueFlag, List.any_eq_true]
    constructor
    · rintro ⟨e, he, hb⟩
      rw [Bool.and_eq_true, Bool.and_eq_true] at hb
      obtain ⟨⟨hu, hlen⟩, hhead⟩ := hb
      refine ⟨e, he, hu, ?_⟩
      match hcols : e.2.columns with
      | [] => rw [hcols] at hlen; exact absurd hlen (by decide)
      | [c0] =>
        rw [hcols] at hhead
        simp only [List.head?] at hhead
        have hc0 : c0.1 = p.2.name := by simpa using hhead
        exact ⟨c0.2, by rw [← hc0]⟩
      | c0 :: c1 :: rest => rw [hcols] at hlen; simp at hlen
    · rintro ⟨e, he, hu, pos, hcols⟩
      refine ⟨e, he, ?_⟩
      rw [Bool.and_eq_true, Bool.and_eq_true]
      refine ⟨⟨hu, by rw [hcols]; rfl⟩, ?_⟩
      rw [hcols]
      simp
  · exact of_decide_eq_true (by with_unfolding_all rfl)

/-- The field built from column `z` in the C5 witness run (a single-column
unique index covers it). -/
def exFZu : DBField :=
  ⟨"id0", "z", ⟨"int", "int"⟩, false, true, true, none, none, none, none, none, 0, none⟩

/-- The table built in the C5 witness run. -/
def exTblZu : DBTable :=
  ⟨"id2", "t", none, 0, 0, [exFZu],
   [⟨"id1", "u2", true, ["id0"], 0⟩], "#c0ffee", false, 0, none, none, none, false, false⟩

/-- Witness for C5: the `z` field of a table with the 1-column unique index
`u2` satisfies the characterization. -/
theorem C5_unique_flag_witness :
    (createTablesFromMetadata exCtx [exTI] [exCol "z" 1] [exIdx "u2" "z" true 1] [] [])[0]? =
      some exTblZu ∧
    exFZu ∈ exTblZu.fields ∧
    (exFZu.unique = true ↔
      ∃ e ∈ aggregatedIndexesOf [exIdx "u2" "z" true 1] ([exTI].get ⟨0, by decide⟩),
        e.2.unique = true ∧ ∃ pos, e.2.columns = [(exFZu.name, pos)]) := by
  have hsome : (createTablesFromMetadata exCtx [exTI] [exCol "z" 1]
      [exIdx "u2" "z" true 1] [] [])[0]? = some exTblZu :=
    of_decide_eq_true (by with_unfolding_all rfl)
  exact ⟨hsome, by decide,
    C5_unique_flag.1 exCtx [exTI] [exCol "z" 1] [exIdx "u2" "z" true 1] [] [] 0
      (by decide) exTblZu hsome exFZu (by decide)⟩

/-- Witness for C7 at a concrete column/primary-key pair. -/
theorem C7_primary_key_flag_witness :
    (createTablesFromMetadata exCtx [exTI] [exCol "z" 1] [] [⟨none, "t", "z"⟩] [])[0]? =
      some exTblZ ∧
    exFZ ∈ exTblZ.fields ∧
    (exFZ.primaryKey = true ↔ exFZ.name ∈ tablePrimaryKeysOf [⟨none, "t", "z"⟩] exTI) := by
  have hsome : (createTablesFromMetadata exCtx [exTI] [exCol "z" 1] [] [⟨none, "t", "z"⟩] [])[0]? =
      some exTblZ := of_decide_eq_true (by with_unfolding_all rfl)
  exact ⟨hsome, by decide,
    C7_primary_key_flag exCtx [exTI] [exCol "z" 1] [] [⟨none, "t", "z"⟩] [] 0 (by decide)
      exTblZ hsome exFZ (by decide)⟩

/-!  ## C8: index aggregation -/

theorem norm_eq_some {o : Option String} {sv : String}
    (h : schemaNameToDomainSchemaName o = some sv) : o = some sv := by
  match o with
  | none => exact absurd h (by simp [schemaNameToDomainSchemaName])
  | some v =>
    rw [schemaNameToDomainSchemaName] at h
    by_cases hv : v = ""
    · rw [if_pos hv] at h; cases h
    · rw [if_neg hv] at h; exact h

theorem norm_eq_none {o : Option String}
    (h : schemaNameToDomainSchemaName o = none) : o = none ∨ o = some "" := by
  match o with
  | none => exact Or.inl rfl
  | some v =>
    rw [schemaNameToDomainSchemaName] at h
    by_cases hv : v = ""
    · exact Or.inr (by rw [hv])
    · rw [if_neg hv] at h; cases h

theorem strHead {s : String} (t : String) {c : Char} (h : s.data.head? = some c) :
    (s ++ t).data.head? = some c := by
  rw [String.data_append]
  cases hs : s.data with
  | nil => rw [hs] at h; cases h
  | cons a l => rw [hs] at h; simpa using h

theorem mem_tableIndexes_schema {idxs : List IndexInfo} {ti : TableInfo} {r : IndexInfo}
    (h : r ∈ tableIndexesOf idxs ti) :
    schemaNameToDomainSchemaName r.schema = tableSchemaOf ti := by
  rw [tableIndexesOf, List.mem_filter] at h
  have := h.2
  rw [Bool.and_eq_true] at this
  exact beq_iff_eq.mp this.2

theorem string_append_right_inj {a b c : String} (h : a ++ b = a ++ c) : b = c := by
  apply String.ext
  have hd := congrArg String.data h
  rw [String.data_append, String.data_append] at hd
  exact List.append_cancel_left hd

/-- The aggregation key determines, within one table's filtered index rows,
the raw (schema, index name) pair: the `_`-concatenated key causes no
collisions there. -/
theorem aggKey_inj (idxs : List IndexInfo) (ti : TableInfo) (r1 r2 : IndexInfo)
    (h1 : r1 ∈ tableIndexesOf idxs ti) (h2 : r2 ∈ tableIndexesOf idxs ti) :
    aggKey r1 = aggKey r2 ↔ (r1.schema = r2.schema ∧ r1.name = r2.name) := by
  constructor
  · intro hk
    have hs1 := mem_tableIndexes_schema h1
    have hs2 := mem_tableIndexes_schema h2
    cases htv : tableSchemaOf ti with
    | some sv =>
      have e1 : r1.schema = some sv := norm_eq_some (htv ▸ hs1)
      have e2 : r2.schema = some sv := norm_eq_some (htv ▸ hs2)
      refine ⟨e1.trans e2.symm, ?_⟩
      rw [aggKey, aggKey, e1, e2] at hk
      have hk2 : (sv ++ "_") ++ r1.name = (sv ++ "_") ++ r2.name := by
        simpa [String.append_assoc] using hk
      exact string_append_right_inj hk2
    | none =>
      rcases norm_eq_none (htv ▸ hs1) with e1 | e1 <;>
        rcases norm_eq_none (htv ▸ hs2) with e2 | e2
      · refine ⟨e1.trans e2.symm, ?_⟩
        rw [aggKey, aggKey, e1, e2] at hk
        exact string_append_right_inj (by simpa [String.append_assoc, optSchemaToStr] using hk)
      · exfalso
        rw [aggKey, aggKey, e1, e2] at hk
        have hu : ((optSchemaToStr none ++ "_") ++ r1.name).data.head? = some 'u' :=
          strHead r1.name (strHead "_" rfl)
        have hv : ((optSchemaToStr (some "") ++ "_") ++ r2.name).data.head? = some '_' :=
          strHead r2.name rfl
        rw [hk, hv] at hu
        cases hu
      · exfalso
        rw [aggKey, aggKey, e1, e2] at hk
        have hu : ((optSchemaToStr none ++ "_") ++ r2.name).data.head? = some 'u' :=
          strHead r2.name (strHead "_" rfl)
        have hv : ((optSchemaToStr (some "") ++ "_") ++ r1.name).data.head? = some '_' :=
          strHead r1.name rfl
        rw [← hk, hv] at hu
        cases hu
      · refine ⟨e1.trans e2.symm, ?_⟩
        rw [aggKey, aggKey, e1, e2] at hk
        exact string_append_right_inj (by simpa [String.append_assoc, optSchemaToStr] using hk)
  · rintro ⟨hs, hn⟩
    rw [aggKey, aggKey, hs, hn]

theorem aggStep_find? (acc : List (String × AggIndex)) (r : IndexInfo) (k : String) :
    (aggStep acc r).find? (fun e => e.1 == k) =
      if aggKey r == k then
        match acc.find? (fun e => e.1 == k) with
        | some a => some (a.1, ⟨a.2.name, a.2.unique,
            a.2.columns ++ [(r.column, r.column_position)]⟩)
        | none => some (aggKey r, ⟨r.name, r.unique, [(r.column, r.column_position)]⟩)
      else acc.find? (fun e => e.1 == k) := by
  rw [aggStep]
  cases hany : acc.any (fun e => e.1 == aggKey r) with
  | true =>
    rw [if_pos rfl, List.find?_map]
    have hcomp : ((fun e : String × AggIndex => e.1 == k) ∘ fun e : String × AggIndex =>
        if e.1 == aggKey r then
          (e.1, { e.2 with columns := e.2.columns ++ [(r.column, r.column_position)] })
        else e) = fun e : String × AggIndex => e.1 == k := by
      funext e
      by_cases he : e.1 = aggKey r <;> simp [he]
    rw [hcomp]
    cases hrk : aggKey r == k with
    | true =>
      rw [if_pos rfl]
      have hkr : aggKey r = k := beq_iff_eq.mp hrk
      cases hfind : acc.find? (fun e => e.1 == k) with
      | none =>
        exfalso
        obtain ⟨x, hx, hbx⟩ := List.any_eq_true.mp hany
        exact (List.find?_eq_none.mp hfind) x hx (by rw [← hkr]; exact hbx)
      | some a =>
        have hb := List.find?_some hfind
        have ha : a.1 = k := beq_iff_eq.mp hb
        simp only [Option.map_some']
        rw [if_pos (beq_iff_eq.mpr (ha.trans hkr.symm))]
    | false =>
      rw [if_neg Bool.false_ne_true]
      cases hfind : acc.find? (fun e => e.1 == k) with
      | none => rfl
      | some a =>
        have hb := List.find?_some hfind
        have ha : a.1 = k := beq_iff_eq.mp hb
        simp only [Option.map_some']
        rw [if_neg ?hcon]
        case hcon =>
          intro hcon
          rw [ha] at hcon
          rw [← beq_iff_eq.mp hcon] at hrk
          simp at hrk
  | false =>
    rw [if_neg Bool.false_ne_true, List.find?_append]
    cases hrk : aggKey r == k with
    | true =>
      rw [if_pos rfl]
      have hkr : aggKey r = k := beq_iff_eq.mp hrk
      have hnone : acc.find? (fun e => e.1 == k) = none := by
        rw [List.find?_eq_none]
        intro x hx hcx
        have : acc.any (fun e => e.1 == aggKey r) = true :=
          List.any_eq_true.mpr ⟨x, hx, by rw [hkr]; exact hcx⟩
        rw [hany] at this; cases this
      rw [hnone]
      simp [List.find?_cons, hrk]
    | false =>
      rw [if_neg Bool.false_ne_true]
      have hsingle : ([(aggKey r, (⟨r.name, r.unique,
          [(r.column, r.column_position)]⟩ : AggIndex))].find? (fun e => e.1 == k)) = none := by
        simp [List.find?_cons, hrk]
      rw [hsingle]
      cases acc.find? (fun e => e.1 == k) <;> rfl

theorem agg_find (k : String) : ∀ (rows : List IndexInfo) (acc : List (String × AggIndex)),
    (rows.foldl aggStep acc).find? (fun e => e.1 == k) =
      match acc.find? (fun e => e.1 == k) with
      | some a => some (a.1, ⟨a.2.name, a.2.unique,
          a.2.columns ++ (rows.filter (fun r => aggKey r == k)).map
            (fun r => (r.column, r.column_position))⟩)
      | none =>
        match rows.find? (fun r => aggKey r == k) with
        | some r0 => some (k, ⟨r0.name, r0.unique,
            (rows.filter (fun r => aggKey r == k)).map
              (fun r => (r.column, r.column_position))⟩)
        | none => none := by
  intro rows
  induction rows with
  | nil =>
    intro acc
    cases hfind : acc.find? (fun e => e.1 == k) <;> simp [hfind]
  | cons r rows ih =>
    intro acc
    rw [List.foldl_cons, ih (aggStep acc r), aggStep_find?]
    cases hrk : aggKey r == k with
    | true =>
      rw [if_pos rfl]
      have hkr : aggKey r = k := beq_iff_eq.mp hrk
      have hfcons : (r :: rows).filter (fun r => aggKey r == k) =
          r :: rows.filter (fun r => aggKey r == k) := by
        rw [List.filter_cons, if_pos hrk]
      cases hfind : acc.find? (fun e => e.1 == k) with
      | some a =>
        simp only [hfcons, List.map_cons]
        rw [List.append_cons, List.append_assoc]
        simp
      | none =>
        have hfindr : (r :: rows).find? (fun r => aggKey r == k) = some r := by
          simp [List.find?_cons, hrk]
        simp only [hfindr, hfcons, List.map_cons, hkr]
        rfl
    | false =>
      rw [if_neg Bool.false_ne_true]
      have hfeq : (r :: rows).filter (fun r => aggKey r == k) =
          rows.filter (fun r => aggKey r == k) := by
        rw [List.filter_cons, if_neg (by rw [hrk]; exact Bool.false_ne_true)]
      cases hfind : acc.find? (fun e => e.1 == k) with
      | some a => rw [hfeq]
      | none =>
        have hfind2 : (r :: rows).find? (fun r => aggKey r == k) =
            rows.find? (fun r => aggKey r == k) := by
          simp [List.find?_cons, hrk]
        rw [hfeq, hfind2]

theorem aggStep_keysNodup (acc : List (String × AggIndex)) (r : IndexInfo)
    (h : (acc.map (fun e => e.1)).Nodup) : ((aggStep acc r).map (fun e => e.1)).Nodup := by
  rw [aggStep]
  cases hany : acc.any (fun e => e.1 == aggKey r) with
  | true =>
    rw [if_pos rfl, List.map_map]
    have hcomp : ((fun e : String × AggIndex => e.1) ∘ fun e : String × AggIndex =>
        if e.1 == aggKey r then
          (e.1, { e.2 with columns := e.2.columns ++ [(r.column, r.column_position)] })
        else e) = fun e : String × AggIndex => e.1 := by
      funext e
      by_cases he : e.1 = aggKey r <;> simp [he]
    rw [hcomp]
    exact h
  | false =>
    rw [if_neg Bool.false_ne_true, List.map_append]
    rw [List.nodup_append]
    refine ⟨h, List.nodup_singleton _, ?_⟩
    intro x hx hx2
    have hx3 : x = aggKey r := by simpa using hx2
    subst hx3
    obtain ⟨e, he, hee⟩ := List.mem_map.mp hx
    have : acc.any (fun e => e.1 == aggKey r) = true :=
      List.any_eq_true.mpr ⟨e, he, beq_iff_eq.mpr hee⟩
    rw [hany] at this; cases this

theorem agg_keysNodup (rows : List IndexInfo) : ∀ acc : List (String × AggIndex),
    (acc.map (fun e => e.1)).Nodup → ((rows.foldl aggStep acc).map (fun e => e.1)).Nodup := by
  induction rows with
  | nil => intro acc h; exact h
  | cons r rows ih => intro acc h; exact ih (aggStep acc r) (aggStep_keysNodup acc r h)

theorem aggregatedIndexes_keysNodup (idxs : List IndexInfo) (ti : TableInfo) :
    ((aggregatedIndexesOf idxs ti).map (fun e => e.1)).Nodup :=
  agg_keysNodup (tableIndexesOf idxs ti) [] (by simp)

theorem find?_of_mem_nodupKeys {α : Type} : ∀ (l : List (String × α)),
    (l.map (fun e => e.1)).Nodup → ∀ e ∈ l, l.find? (fun x => x.1 == e.1) = some e := by
  intro l
  induction l with
  | nil => intro _ e he; cases he
  | cons a l ih =>
    intro hnd e he
    rw [List.map_cons, List.nodup_cons] at hnd
    rcases List.mem_cons.mp he with rfl | he2
    · simp [List.find?_cons]
    · have hne : (a.1 == e.1) = false := by
        rw [beq_eq_false_iff_ne]
        intro hq
        exact hnd.1 (hq ▸ List.mem_map.mpr ⟨e, he2, rfl⟩)
      rw [List.find?_cons, hne]
      exact ih hnd.2 e he2

instance : IsTotal (String × Int) posLe := ⟨fun a b => le_total a.2 b.2⟩

instance : IsTrans (String × Int) posLe := ⟨fun _ _ _ hab hbc => le_trans hab hbc⟩

/-- C8: within one table's filtered raw index rows, two rows are aggregated
into the same entry iff their (schema, index name) components are equal as a
pair — the `_`-concatenated record key collides for no two distinct pairs in
that domain; each aggregated entry takes its name and unique flag from the
first row of its group, its column list is exactly the group's rows in raw
order, and the built `DBIndex` list carries, per entry, that column list
sorted by declared column position and resolved to field ids. -/
theorem C8_index_grouping :
    (∀ (idxs : List IndexInfo) (ti : TableInfo) (r1 r2 : IndexInfo),
       r1 ∈ tableIndexesOf idxs ti → r2 ∈ tableIndexesOf idxs ti →
       (aggKey r1 = aggKey r2 ↔ (r1.schema = r2.schema ∧ r1.name = r2.name))) ∧
    (∀ (idxs : List IndexInfo) (ti : TableInfo) (e : String × AggIndex),
       e ∈ aggregatedIndexesOf idxs ti →
       ∃ r0 ∈ tableIndexesOf idxs ti, aggKey r0 = e.1 ∧ e.2.name = r0.name ∧
         e.2.unique = r0.unique ∧
         e.2.columns = ((tableIndexesOf idxs ti).filter (fun r => aggKey r == e.1)).map
           (fun r => (r.column, r.column_position))) ∧
    (∀ (ctx : NormCtx) (tis : List TableInfo) (cols : List ColumnInfo)
       (idxs : List IndexInfo) (pks : List PrimaryKeyInfo) (vws : List ViewInfo)
       (i : Nat) (h : i < tis.length) (tbl : DBTable),
       (createTablesFromMetadata ctx tis cols idxs pks vws)[i]? = some tbl →
       tbl.indexes.map (fun d => (d.name, d.unique, d.fieldIds)) =
         (aggregatedIndexesOf idxs (tis.get ⟨i, h⟩)).map
           (fun e => (e.2.name, e.2.unique, mkFieldIds tbl.fields e.2)) ∧
       ∀ e ∈ aggregatedIndexesOf idxs (tis.get ⟨i, h⟩),
         (e.2.columns.insertionSort posLe).Pairwise posLe) := by
  refine ⟨aggKey_inj, ?_, ?_⟩
  · intro idxs ti e he
    have hnd := aggregatedIndexes_keysNodup idxs ti
    have hfind := find?_of_mem_nodupKeys _ hnd e he
    rw [aggregatedIndexesOf, agg_find e.1 (tableIndexesOf idxs ti) [], List.find?_nil] at hfind
    cases hr0 : (tableIndexesOf idxs ti).find? (fun r => aggKey r == e.1) with
    | none => rw [hr0] at hfind; cases hfind
    | some r0 =>
      rw [hr0] at hfind
      have hinj := Option.some.inj hfind
      have hsnd := congrArg Prod.snd hinj
      have hb0 := List.find?_some hr0
      refine ⟨r0, List.mem_of_find?_eq_some hr0, beq_iff_eq.mp hb0, ?_, ?_, ?_⟩
      · exact (congrArg AggIndex.name hsnd).symm
      · exact (congrArg AggIndex.unique hsnd).symm
      · exact (congrArg AggIndex.columns hsnd).symm
  · intro ctx tis cols idxs pks vws i h tbl hsome
    obtain ⟨c, hc⟩ := createTablesFromMetadata_getElem? ctx tis cols idxs pks vws i h tbl hsome
    subst hc
    constructor
    · show (mkIndexes ctx _ (mkFields ctx c cols pks idxs (tis.get ⟨i, h⟩))
          (aggregatedIndexesOf idxs (tis.get ⟨i, h⟩))).map _ = _
      rw [mkIndexes, List.map_map]
      have hcomp : ((fun d : DBIndex => (d.name, d.unique, d.fieldIds)) ∘
          fun p : Nat × (String × AggIndex) =>
            ({ id := ctx.gen (c + (mkFields ctx c cols pks idxs (tis.get ⟨i, h⟩)).length + p.1)
               name := p.2.2.name
               unique := p.2.2.unique
               fieldIds := mkFieldIds (mkFields ctx c cols pks idxs (tis.get ⟨i, h⟩)) p.2.2
               createdAt := ctx.now } : DBIndex)) =
          (fun e : String × AggIndex => (e.2.name, e.2.unique,
            mkFieldIds (mkFields ctx c cols pks idxs (tis.get ⟨i, h⟩)) e.2)) ∘
          (fun p : Nat × (String × AggIndex) => p.2) := rfl
      rw [hcomp, ← List.map_map, List.enum_map_snd]
      rfl
    · intro e _
      exact List.sorted_insertionSort posLe e.2.columns

/-- Witness for C8: the two rows of the 2-column index `u1` of table `t`
share an aggregation key exactly because their (schema, name) pairs agree. -/
theorem C8_index_grouping_witness :
    aggKey (exIdx "u1" "x" true 1) = aggKey (exIdx "u1" "y" true 2) ↔
      ((exIdx "u1" "x" true 1).schema = (exIdx "u1" "y" true 2).schema ∧
       (exIdx "u1" "x" true 1).name = (exIdx "u1" "y" true 2).name) :=
  C8_index_grouping.1 [exIdx "u1" "x" true 1, exIdx "u1" "y" true 2] exTI
    (exIdx "u1" "x" true 1) (exIdx "u1" "y" true 2) (by decide) (by decide)

/-!  ## Layout engine: spiral search specification -/

theorem isOverlapping_false_spec {posMap : List PosEntry} {x y : ℚ} {tid : String}
    (h : isOverlapping posMap x y tid = false) :
    ∀ e ∈ posMap, e.1 ≠ tid →
      ¬(|x - e.2.1| < tableWidth + gapX ∧ |y - e.2.2| < tableHeight + gapY) := by
  rw [isOverlapping, List.any_eq_false] at h
  intro e he hne hcon
  have hb : (e.1 == tid) = false := beq_eq_false_iff_ne.mpr hne
  have := h e he
  rw [hb] at this
  simp only [Bool.not_false, Bool.true_and, Bool.and_eq_true, decide_eq_true_eq] at this
  exact this ⟨hcon.1, hcon.2⟩

/-- Full behavior of the spiral-search loop: a `false` flag means the result
is one of the at most `n` tested candidates and is overlap-free; a `true`
flag means every tested candidate overlapped and the result is the first
untested candidate (the state after `n` advances). -/
theorem findLoop_spec (cosA sinA : ℚ → ℚ) (posMap : List PosEntry) (tid : String)
    (baseX baseY : ℚ) :
    ∀ (n : Nat) (s : ℚ × ℚ),
      ((findLoop cosA sinA posMap tid baseX baseY n s).2 = false →
        isOverlapping posMap (findLoop cosA sinA posMap tid baseX baseY n s).1.1
          (findLoop cosA sinA posMap tid baseX baseY n s).1.2 tid = false ∧
        ∃ k, k < n ∧ (findLoop cosA sinA posMap tid baseX baseY n s).1 =
          spiralPoint cosA sinA baseX baseY (spiralAdvanceN k s)) ∧
      ((findLoop cosA sinA posMap tid baseX baseY n s).2 = true →
        (findLoop cosA sinA posMap tid baseX baseY n s).1 =
          spiralPoint cosA sinA baseX baseY (spiralAdvanceN n s) ∧
        ∀ k, k < n →
          isOverlapping posMap
            (spiralPoint cosA sinA baseX baseY (spiralAdvanceN k s)).1
            (spiralPoint cosA sinA baseX baseY (spiralAdvanceN k s)).2 tid = true) := by
  intro n
  induction n with
  | zero =>
    intro s
    refine ⟨fun hf => ?_, fun _ => ⟨rfl, fun k hk => absurd hk (by omega)⟩⟩
    have : (true : Bool) = false := hf
    cases this
  | succ n ih =>
    intro s
    cases hov : isOverlapping posMap (spiralPoint cosA sinA baseX baseY s).1
        (spiralPoint cosA sinA baseX baseY s).2 tid with
    | true =>
      have heq : findLoop cosA sinA posMap tid baseX baseY (Nat.succ n) s =
          findLoop cosA sinA posMap tid baseX baseY n (spiralAdvance s) := by
        rw [findLoop, hov, if_pos rfl]
      rw [heq]
      refine ⟨fun hf => ?_, fun ht => ?_⟩
      · obtain ⟨hfree, k, hk, hform⟩ := (ih (spiralAdvance s)).1 hf
        exact ⟨hfree, ⟨k + 1, by omega, hform⟩⟩
      · obtain ⟨hform, hall⟩ := (ih (spiralAdvance s)).2 ht
        refine ⟨hform, fun k hk => ?_⟩
        match k with
        | 0 => exact hov
        | Nat.succ j => exact hall j (by omega)
    | false =>
      have heq : findLoop cosA sinA posMap tid baseX baseY (Nat.succ n) s =
          (spiralPoint cosA sinA baseX baseY s, false) := by
        rw [findLoop, hov, if_neg Bool.false_ne_true]
      rw [heq]
      exact ⟨fun _ => ⟨hov, ⟨0, by omega, rfl⟩⟩, fun ht => absurd ht Bool.false_ne_true⟩

/-!  ## Layout engine: run invariant -/

theorem mem_of_contains_true {l : List String} {a : String}
    (h : l.contains a = true) : a ∈ l :=
  List.elem_iff.mp h

theorem not_mem_of_contains_false {l : List String} {a : String}
    (h : l.contains a = false) : a ∉ l := by
  intro hm
  have ht : l.contains a = true := List.elem_iff.mpr hm
  rw [h] at ht
  cases ht

theorem contains_false_of_not_mem {l : List String} {a : String}
    (h : a ∉ l) : l.contains a = false := by
  cases hc : l.contains a with
  | false => rfl
  | true => exact absurd (mem_of_contains_true hc) h

/-- Two position entries are not within the conservative overlap margin. -/
def overlapFree (e1 e2 : PosEntry) : Prop :=
  ¬(|e1.2.1 - e2.2.1| < tableWidth + gapX ∧ |e1.2.2 - e2.2.2| < tableHeight + gapY)

theorem overlapFree_symm {e1 e2 : PosEntry} (h : overlapFree e1 e2) : overlapFree e2 e1 := by
  rw [overlapFree] at h ⊢
  rw [abs_sub_comm e2.2.1 e1.2.1, abs_sub_comm e2.2.2 e1.2.2]
  exact h

/-- Invariant of a layout run's state: the position map's keys are exactly
the placed set (in order), placed ids are distinct, and any two entries with
distinct ids, neither of which exhausted its spiral cap, are overlap-free. -/
def StInv (st : LState) : Prop :=
  st.posMap.map (fun e => e.1) = st.placed ∧
  st.placed.Nodup ∧
  ∀ e1 ∈ st.posMap, ∀ e2 ∈ st.posMap, e1.1 ≠ e2.1 →
    e1.1 ∉ st.exhausted → e2.1 ∉ st.exhausted → overlapFree e1 e2

theorem initState_stInv : StInv initState :=
  ⟨rfl, List.nodup_nil, fun _ h1 => absurd h1 (List.not_mem_nil _)⟩

theorem stInv_add (cosA sinA : ℚ → ℚ) (st : LState) (tid : String) (bx b_y : ℚ)
    (hInv : StInv st) (hnp : tid ∉ st.placed) :
    StInv ⟨tid :: st.placed,
      (tid, (findNonOverlappingPosition cosA sinA st.posMap tid bx b_y).1) :: st.posMap,
      if (findNonOverlappingPosition cosA sinA st.posMap tid bx b_y).2 then
        tid :: st.exhausted else st.exhausted⟩ := by
  obtain ⟨hsync, hnd, hsep⟩ := hInv
  refine ⟨by simp [hsync], List.nodup_cons.mpr ⟨hnp, hnd⟩, ?_⟩
  have hexmono : ∀ a : String, a ∉ (if (findNonOverlappingPosition cosA sinA st.posMap tid bx b_y).2
      then tid :: st.exhausted else st.exhausted) → a ∉ st.exhausted := by
    intro a ha hcon
    apply ha
    cases (findNonOverlappingPosition cosA sinA st.posMap tid bx b_y).2 with
    | true => exact List.mem_cons_of_mem _ hcon
    | false => exact hcon
  have hfresh : ∀ e ∈ st.posMap, e.1 ≠ tid := by
    intro e he hcon
    exact hnp (hsync ▸ List.mem_map.mpr ⟨e, he, hcon⟩)
  have hnew : ∀ e2 ∈ st.posMap,
      tid ∉ (if (findNonOverlappingPosition cosA sinA st.posMap tid bx b_y).2 then
        tid :: st.exhausted else st.exhausted) →
      overlapFree (tid, (findNonOverlappingPosition cosA sinA st.posMap tid bx b_y).1) e2 := by
    intro e2 he2 hex
    cases hflag : (findNonOverlappingPosition cosA sinA st.posMap tid bx b_y).2 with
    | true => rw [hflag] at hex; exact absurd (List.mem_cons_self tid _) hex
    | false =>
      have hspec := ((findLoop_spec cosA sinA st.posMap tid bx b_y 1000 (0, 0)).1 hflag).1
      exact isOverlapping_false_spec hspec e2 he2 (hfresh e2 he2)
  intro e1 h1 e2 h2 hne hex1 hex2
  rcases List.mem_cons.mp h1 with rfl | h1' <;> rcases List.mem_cons.mp h2 with rfl | h2'
  · exact absurd rfl hne
  · exact hnew e2 h2' hex1
  · exact overlapFree_symm (hnew e1 h1' hex2)
  · exact hsep e1 h1' e2 h2' hne (hexmono _ hex1) (hexmono _ hex2)

/-- Fold preservation: any step function that preserves the invariant and
only grows the placed set transfers both properties to the whole fold. -/
theorem foldl_keep {β : Type} (F : (LState × ℚ) → β → (LState × ℚ))
    (h1 : ∀ acc b, StInv acc.1 → StInv (F acc b).1)
    (h2 : ∀ acc b a, a ∈ acc.1.placed → a ∈ (F acc b).1.placed) :
    ∀ (ids : List β) (acc : LState × ℚ),
      (StInv acc.1 → StInv (ids.foldl F acc).1) ∧
      (∀ a, a ∈ acc.1.placed → a ∈ (ids.foldl F acc).1.placed) := by
  intro ids
  induction ids with
  | nil => intro acc; exact ⟨id, fun a ha => ha⟩
  | cons b rest ih =>
    intro acc
    rw [List.foldl_cons]
    exact ⟨fun h => (ih (F acc b)).1 (h1 acc b h),
      fun a ha => (ih (F acc b)).2 a (h2 acc b a ha)⟩

theorem childFold_placed_mono (tables : List DBTable) (cosA sinA : ℚ → ℚ)
    (recur : LState → DBTable → ℚ → ℚ → LState)
    (hrec : ∀ st t bx b_y a, a ∈ st.placed → a ∈ (recur st t bx b_y).placed)
    (px py step : ℚ) (acc : LState × ℚ) (cid : String) (a : String)
    (ha : a ∈ acc.1.placed) :
    a ∈ (childFold tables cosA sinA recur px py step acc cid).1.placed := by
  rw [childFold]
  cases hc : acc.1.placed.contains cid with
  | true => rw [if_pos rfl]; exact ha
  | false =>
    rw [if_neg Bool.false_ne_true]
    cases tables.find? (fun tt => tt.id == cid) with
    | none => exact ha
    | some ct => exact hrec acc.1 ct _ _ a ha

theorem childFold_stInv (tables : List DBTable) (cosA sinA : ℚ → ℚ)
    (recur : LState → DBTable → ℚ → ℚ → LState)
    (hrec : ∀ st t bx b_y, StInv st → StInv (recur st t bx b_y))
    (px py step : ℚ) (acc : LState × ℚ) (cid : String) (hInv : StInv acc.1) :
    StInv (childFold tables cosA sinA recur px py step acc cid).1 := by
  rw [childFold]
  cases hc : acc.1.placed.contains cid with
  | true => rw [if_pos rfl]; exact hInv
  | false =>
    rw [if_neg Bool.false_ne_true]
    cases tables.find? (fun tt => tt.id == cid) with
    | none => exact hInv
    | some ct => exact hrec acc.1 ct _ _ hInv

theorem ptBody_keep (tables : List DBTable) (conns : ConnMap) (cosA sinA : ℚ → ℚ)
    (recur : LState → DBTable → ℚ → ℚ → LState)
    (hrec1 : ∀ st t bx b_y, StInv st → StInv (recur st t bx b_y))
    (hrec2 : ∀ st t bx b_y a, a ∈ st.placed → a ∈ (recur st t bx b_y).placed)
    (st : LState) (t : DBTable) (bx b_y : ℚ) :
    (StInv st → StInv (ptBody tables conns cosA sinA recur st t bx b_y)) ∧
    (∀ a ∈ st.placed, a ∈ (ptBody tables conns cosA sinA recur st t bx b_y).placed) := by
  rw [ptBody]
  cases hc : st.placed.contains t.id with
  | true => rw [if_pos rfl]; exact ⟨id, fun a ha => ha⟩
  | false =>
    rw [if_neg Bool.false_ne_true]
    have hnp : t.id ∉ st.placed := not_mem_of_contains_false hc
    have hfold := foldl_keep
      (childFold tables cosA sinA recur
        (findNonOverlappingPosition cosA sinA st.posMap t.id bx b_y).1.1
        (findNonOverlappingPosition cosA sinA st.posMap t.id bx b_y).1.2
        (if (connsLookup conns t.id).length = 0 then 0
         else 1 / ((connsLookup conns t.id).length : ℚ)))
      (fun acc b hI => childFold_stInv tables cosA sinA recur hrec1 _ _ _ acc b hI)
      (fun acc b a ha => childFold_placed_mono tables cosA sinA recur hrec2 _ _ _ acc b a ha)
      (connsLookup conns t.id)
      (⟨t.id :: st.placed,
        (t.id, (findNonOverlappingPosition cosA sinA st.posMap t.id bx b_y).1) :: st.posMap,
        if (findNonOverlappingPosition cosA sinA st.posMap t.id bx b_y).2 then
          t.id :: st.exhausted else st.exhausted⟩, 0)
    exact ⟨fun hInv => hfold.1 (stInv_add cosA sinA st t.id bx b_y hInv hnp),
      fun a ha => hfold.2 a (List.mem_cons_of_mem _ ha)⟩

theorem pt_keep (tables : List DBTable) (conns : ConnMap) (cosA sinA : ℚ → ℚ) :
    ∀ (f : Nat) (st : LState) (t : DBTable) (bx b_y : ℚ),
      (StInv st → StInv (positionTable tables conns cosA sinA f st t bx b_y)) ∧
      (∀ a ∈ st.placed, a ∈ (positionTable tables conns cosA sinA f st t bx b_y).placed) := by
  intro f
  induction f with
  | zero => intro st t bx b_y; exact ⟨id, fun a ha => ha⟩
  | succ f ih =>
    intro st t bx b_y
    exact ptBody_keep tables conns cosA sinA (positionTable tables conns cosA sinA f)
      (fun st' t' bx' by' => (ih st' t' bx' by').1)
      (fun st' t' bx' by' => (ih st' t' bx' by').2) st t bx b_y

theorem pt_places (tables : List DBTable) (conns : ConnMap) (cosA sinA : ℚ → ℚ)
    (f : Nat) (st : LState) (t : DBTable) (bx b_y : ℚ) :
    t.id ∈ (positionTable tables conns cosA sinA (Nat.succ f) st t bx b_y).placed := by
  show t.id ∈ (ptBody tables conns cosA sinA (positionTable tables conns cosA sinA f)
    st t bx b_y).placed
  rw [ptBody]
  cases hc : st.placed.contains t.id with
  | true =>
    rw [if_pos rfl]
    exact mem_of_contains_true hc
  | false =>
    rw [if_neg Bool.false_ne_true]
    have hfold := foldl_keep
      (childFold tables cosA sinA (positionTable tables conns cosA sinA f)
        (findNonOverlappingPosition cosA sinA st.posMap t.id bx b_y).1.1
        (findNonOverlappingPosition cosA sinA st.posMap t.id bx b_y).1.2
        (if (connsLookup conns t.id).length = 0 then 0
         else 1 / ((connsLookup conns t.id).length : ℚ)))
      (fun acc b hI => childFold_stInv tables cosA sinA _
        (fun st' t' bx' by' => (pt_keep tables conns cosA sinA f st' t' bx' by').1) _ _ _ acc b hI)
      (fun acc b a ha => childFold_placed_mono tables cosA sinA _
        (fun st' t' bx' by' => (pt_keep tables conns cosA sinA f st' t' bx' by').2) _ _ _ acc b a ha)
      (connsLookup conns t.id)
      (⟨t.id :: st.placed,
        (t.id, (findNonOverlappingPosition cosA sinA st.posMap t.id bx b_y).1) :: st.posMap,
        if (findNonOverlappingPosition cosA sinA st.posMap t.id bx b_y).2 then
          t.id :: st.exhausted else st.exhausted⟩, 0)
    exact hfold.2 t.id (List.mem_cons_self _ _)

theorem seedLoop_keep (tables : List DBTable) (conns : ConnMap) (cosA sinA : ℚ → ℚ)
    (fuel : Nat) :
    ∀ (ts : List DBTable) (i : Nat) (st : LState),
      (StInv st → StInv (seedLoop tables conns cosA sinA fuel i st ts)) ∧
      (∀ a ∈ st.placed, a ∈ (seedLoop tables conns cosA sinA fuel i st ts).placed) := by
  intro ts
  induction ts with
  | nil => intro i st; exact ⟨id, fun a ha => ha⟩
  | cons t rest ih =>
    intro i st
    rw [seedLoop]
    cases hc : st.placed.contains t.id with
    | true =>
      rw [if_pos rfl]
      exact ih (i + 1) st
    | false =>
      rw [if_neg Bool.false_ne_true]
      refine ⟨fun hInv => (ih (i + 1) _).1
        ((pt_keep tables conns cosA sinA fuel st t (seedX i) (seedY i)).1 hInv),
        fun a ha => (ih (i + 1) _).2 a
          ((pt_keep tables conns cosA sinA fuel st t (seedX i) (seedY i)).2 a ha)⟩

theorem seedLoop_places (tables : List DBTable) (conns : ConnMap) (cosA sinA : ℚ → ℚ)
    (f : Nat) :
    ∀ (ts : List DBTable) (i : Nat) (st : LState) (t : DBTable), t ∈ ts →
      t.id ∈ (seedLoop tables conns cosA sinA (Nat.succ f) i st ts).placed := by
  intro ts
  induction ts with
  | nil => intro i st t ht; cases ht
  | cons u rest ih =>
    intro i st t ht
    rw [seedLoop]
    rcases List.mem_cons.mp ht with rfl | ht'
    · cases hc : st.placed.contains t.id with
      | true =>
        rw [if_pos rfl]
        exact (seedLoop_keep tables conns cosA sinA (Nat.succ f) rest (i + 1) st).2 t.id
          (mem_of_contains_true hc)
      | false =>
        rw [if_neg Bool.false_ne_true]
        exact (seedLoop_keep tables conns cosA sinA (Nat.succ f) rest (i + 1) _).2 t.id
          (pt_places tables conns cosA sinA f st t (seedX i) (seedY i))
    · cases hc : st.placed.contains u.id with
      | true => rw [if_pos rfl]; exact ih (i + 1) st t ht'
      | false => rw [if_neg Bool.false_ne_true]; exact ih (i + 1) _ t ht'

theorem layoutFuelRun_stInv (cosA sinA : ℚ → ℚ) (fuel : Nat) (tables : List DBTable)
    (rels : List DBRelationship) : StInv (layoutFuelRun cosA sinA fuel tables rels) :=
  (seedLoop_keep tables _ cosA sinA fuel _ 0 initState).1 initState_stInv

theorem layoutRun_stInv (cosA sinA : ℚ → ℚ) (tables : List DBTable)
    (rels : List DBRelationship) : StInv (layoutRun cosA sinA tables rels) :=
  layoutFuelRun_stInv cosA sinA (tables.length + 1) tables rels

theorem layoutRun_complete (cosA sinA : ℚ → ℚ) (tables : List DBTable)
    (rels : List DBRelationship) :
    ∀ t ∈ tables, t.id ∈ (layoutRun cosA sinA tables rels).placed := by
  intro t ht
  have hmem : t ∈ tables.insertionSort (connDesc (buildConns
      (rels.filter fun rel =>
        tables.any (fun tt => tt.id == rel.sourceTableId) &&
          tables.any (fun tt => tt.id == rel.targetTableId)))) :=
    (List.perm_insertionSort _ tables).mem_iff.mpr ht
  exact seedLoop_places tables _ cosA sinA tables.length _ 0 initState t hmem

theorem layoutRun_posMap_isSome (cosA sinA : ℚ → ℚ) (tables : List DBTable)
    (rels : List DBRelationship) :
    ∀ t ∈ tables,
      ((layoutRun cosA sinA tables rels).posMap.find? (fun e => e.1 == t.id)).isSome = true := by
  intro t ht
  have hplaced := layoutRun_complete cosA sinA tables rels t ht
  have hsync := (layoutRun_stInv cosA sinA tables rels).1
  rw [← hsync] at hplaced
  obtain ⟨e, he, hee⟩ := List.mem_map.mp hplaced
  rw [List.find?_isSome]
  exact ⟨e, he, beq_iff_eq.mpr hee⟩

/-!  ## C1: the no-overlap invariant -/

/-- C1: in the collection returned by `adjustTablePositions`, any two tables
with distinct ids, neither of which had its 1000-iteration spiral search cap
exhausted during placement, are NOT simultaneously within `tableWidth+gapX`
horizontally and `tableHeight+gapY` vertically of each other. -/
theorem C1_no_overlap_unless_exhausted :
    ∀ (cosA sinA : ℚ → ℚ) (tables : List DBTable) (rels : List DBRelationship)
      (t1 t2 : DBTable),
      t1 ∈ adjustTablePositions cosA sinA tables rels →
      t2 ∈ adjustTablePositions cosA sinA tables rels →
      t1.id ≠ t2.id →
      t1.id ∉ (layoutRun cosA sinA tables rels).exhausted →
      t2.id ∉ (layoutRun cosA sinA tables rels).exhausted →
      ¬(|t1.x - t2.x| < tableWidth + gapX ∧ |t1.y - t2.y| < tableHeight + gapY) := by
  intro cosA sinA tables rels t1 t2 h1 h2 hne hex1 hex2
  rw [adjustTablePositions, applyPositions] at h1 h2
  obtain ⟨s1, hs1, hg1⟩ := List.mem_map.mp h1
  obtain ⟨s2, hs2, hg2⟩ := List.mem_map.mp h2
  cases hf1 : (layoutRun cosA sinA tables rels).posMap.find? (fun e => e.1 == s1.id) with
  | none =>
    have := layoutRun_posMap_isSome cosA sinA tables rels s1 hs1
    rw [hf1] at this
    cases this
  | some e1 =>
    cases hf2 : (layoutRun cosA sinA tables rels).posMap.find? (fun e => e.1 == s2.id) with
    | none =>
      have := layoutRun_posMap_isSome cosA sinA tables rels s2 hs2
      rw [hf2] at this
      cases this
    | some e2 =>
      rw [hf1] at hg1
      rw [hf2] at hg2
      have he1 : e1 ∈ (layoutRun cosA sinA tables rels).posMap := List.mem_of_find?_eq_some hf1
      have he2 : e2 ∈ (layoutRun cosA sinA tables rels).posMap := List.mem_of_find?_eq_some hf2
      have hk1 := List.find?_some hf1
      have hk2 := List.find?_some hf2
      have hid1 : e1.1 = s1.id := beq_iff_eq.mp hk1
      have hid2 : e2.1 = s2.id := beq_iff_eq.mp hk2
      have ht1x : t1.x = e1.2.1 := by rw [← hg1]
      have ht1y : t1.y = e1.2.2 := by rw [← hg1]
      have ht1id : t1.id = s1.id := by rw [← hg1]
      have ht2x : t2.x = e2.2.1 := by rw [← hg2]
      have ht2y : t2.y = e2.2.2 := by rw [← hg2]
      have ht2id : t2.id = s2.id := by rw [← hg2]
      have hsep := (layoutRun_stInv cosA sinA tables rels).2.2 e1 he1 e2 he2
        (by rw [hid1, hid2, ← ht1id, ← ht2id]; exact hne)
        (by rw [hid1, ← ht1id]; exact hex1)
        (by rw [hid2, ← ht2id]; exact hex2)
      rw [overlapFree] at hsep
      rw [ht1x, ht1y, ht2x, ht2y]
      exact hsep

/-- The first table of the concrete two-table layout run, as returned by
`adjustTablePositions`. -/
def exTblA : DBTable :=
  ⟨"a", "a", none, 100, 100, [], [], "#c0ffee", false, 0, none, none, none, false, false⟩

set_option maxRecDepth 80000 in
/-- Witness for C1 on the concrete two-table layout run: neither table
exhausted its spiral cap and their positions are overlap-free. -/
theorem C1_no_overlap_unless_exhausted_witness :
    exTblA ∈ adjustTablePositions (fun _ => 0) (fun _ => 0) [exTbl "a", exTbl "b"] [] ∧
    exTblB ∈ adjustTablePositions (fun _ => 0) (fun _ => 0) [exTbl "a", exTbl "b"] [] ∧
    exTblA.id ≠ exTblB.id ∧
    exTblA.id ∉ (layoutRun (fun _ => 0) (fun _ => 0) [exTbl "a", exTbl "b"] []).exhausted ∧
    exTblB.id ∉ (layoutRun (fun _ => 0) (fun _ => 0) [exTbl "a", exTbl "b"] []).exhausted ∧
    ¬(|exTblA.x - exTblB.x| < tableWidth + gapX ∧
      |exTblA.y - exTblB.y| < tableHeight + gapY) := by
  have hm1 : exTblA ∈ adjustTablePositions (fun _ => 0) (fun _ => 0) [exTbl "a", exTbl "b"] [] :=
    of_decide_eq_true (by with_unfolding_all rfl)
  have hm2 : exTblB ∈ adjustTablePositions (fun _ => 0) (fun _ => 0) [exTbl "a", exTbl "b"] [] :=
    of_decide_eq_true (by with_unfolding_all rfl)
  have hne : exTblA.id ≠ exTblB.id := by decide
  have hx1 : exTblA.id ∉ (layoutRun (fun _ => 0) (fun _ => 0) [exTbl "a", exTbl "b"] []).exhausted :=
    of_decide_eq_true (by with_unfolding_all rfl)
  have hx2 : exTblB.id ∉ (layoutRun (fun _ => 0) (fun _ => 0) [exTbl "a", exTbl "b"] []).exhausted :=
    of_decide_eq_true (by with_unfolding_all rfl)
  exact ⟨hm1, hm2, hne, hx1, hx2,
    C1_no_overlap_unless_exhausted (fun _ => 0) (fun _ => 0) [exTbl "a", exTbl "b"] []
      exTblA exTblB hm1 hm2 hne hx1 hx2⟩

/-!  ## C2: termination and totality of placement -/

/-- Number of distinct table ids not yet placed: the measure of the
recursive neighbor walk. -/
def unplacedCount (tables : List DBTable) (st : LState) : Nat :=
  (((tables.map (fun t => t.id)).dedup).filter (fun id => !st.placed.contains id)).length

theorem unplacedCount_mono (tables : List DBTable) {st st' : LState}
    (h : ∀ a, a ∈ st.placed → a ∈ st'.placed) :
    unplacedCount tables st' ≤ unplacedCount tables st := by
  apply List.Sublist.length_le
  apply List.monotone_filter_right
  intro a ha
  rw [Bool.not_eq_true'] at ha ⊢
  cases hcon : st.placed.contains a with
  | false => rfl
  | true => exact absurd (h a (mem_of_contains_true hcon)) (not_mem_of_contains_false ha)

theorem unplacedCount_strict (tables : List DBTable) (st : LState) (tid : String)
    (ht : tid ∈ tables.map (fun t => t.id)) (hnp : tid ∉ st.placed)
    {pm : List PosEntry} {ex : List String} :
    unplacedCount tables ⟨tid :: st.placed, pm, ex⟩ < unplacedCount tables st := by
  have hsub : List.Sublist
      (((tables.map (fun t => t.id)).dedup).filter
        (fun id => !(⟨tid :: st.placed, pm, ex⟩ : LState).placed.contains id))
      (((tables.map (fun t => t.id)).dedup).filter (fun id => !st.placed.contains id)) := by
    apply List.monotone_filter_right
    intro a ha
    rw [Bool.not_eq_true'] at ha ⊢
    cases hcon : st.placed.contains a with
    | false => rfl
    | true =>
      exact absurd (List.mem_cons_of_mem tid (mem_of_contains_true hcon))
        (not_mem_of_contains_false ha)
  have hmem : tid ∈ ((tables.map (fun t => t.id)).dedup).filter
      (fun id => !st.placed.contains id) := by
    rw [List.mem_filter]
    refine ⟨List.mem_dedup.mpr ht, ?_⟩
    cases hcon : st.placed.contains tid with
    | false => rfl
    | true => exact absurd (mem_of_contains_true hcon) hnp
  have hnmem : tid ∉ ((tables.map (fun t => t.id)).dedup).filter
      (fun id => !(⟨tid :: st.placed, pm, ex⟩ : LState).placed.contains id) := by
    rw [List.mem_filter]
    rintro ⟨_, hq⟩
    have : (tid :: st.placed).contains tid = true :=
      List.elem_iff.mpr (List.mem_cons_self tid st.placed)
    rw [this] at hq
    cases hq
  rcases Nat.lt_or_ge ((((tables.map (fun t => t.id)).dedup).filter
      (fun id => !(⟨tid :: st.placed, pm, ex⟩ : LState).placed.contains id)).length)
      ((((tables.map (fun t => t.id)).dedup).filter (fun id => !st.placed.contains id)).length)
    with hlt | hge
  · exact hlt
  · exfalso
    have hle := List.Sublist.length_le hsub
    have heq := List.Sublist.eq_of_length hsub (le_antisymm hle hge)
    rw [heq] at hnmem
    exact hnmem hmem

theorem unplacedCount_le (tables : List DBTable) (st : LState) :
    unplacedCount tables st ≤ tables.length := by
  calc unplacedCount tables st
      ≤ ((tables.map (fun t => t.id)).dedup).length := List.length_filter_le _ _
    _ ≤ (tables.map (fun t => t.id)).length := List.Sublist.length_le (List.dedup_sublist _)
    _ = tables.length := List.length_map _ _

theorem foldl_childFold_congr (tables : List DBTable) (cosA sinA : ℚ → ℚ)
    (r1 r2 : LState → DBTable → ℚ → ℚ → LState) (px py step : ℚ) (bound : Nat)
    (hag : ∀ st t bx b_y, unplacedCount tables st < bound →
      t.id ∈ tables.map (fun x => x.id) → r1 st t bx b_y = r2 st t bx b_y)
    (hsub : ∀ st t bx b_y a, a ∈ st.placed → a ∈ (r1 st t bx b_y).placed) :
    ∀ (ids : List String) (acc : LState × ℚ), unplacedCount tables acc.1 < bound →
      ids.foldl (childFold tables cosA sinA r1 px py step) acc =
      ids.foldl (childFold tables cosA sinA r2 px py step) acc := by
  intro ids
  induction ids with
  | nil => intro acc _; rfl
  | cons cid rest ih =>
    intro acc hU
    rw [List.foldl_cons, List.foldl_cons]
    have hstep : childFold tables cosA sinA r1 px py step acc cid =
        childFold tables cosA sinA r2 px py step acc cid := by
      rw [childFold, childFold]
      cases hc : acc.1.placed.contains cid with
      | true => rw [if_pos rfl, if_pos rfl]
      | false =>
        rw [if_neg Bool.false_ne_true, if_neg Bool.false_ne_true]
        cases hf : tables.find? (fun tt => tt.id == cid) with
        | none => rfl
        | some ct =>
          have hct : ct.id ∈ tables.map (fun x => x.id) :=
            List.mem_map.mpr ⟨ct, List.mem_of_find?_eq_some hf, rfl⟩
          have hag2 := hag acc.1 ct (px + cosA acc.2 * (tableWidth + gapX * 2))
            (py + sinA acc.2 * (tableHeight + gapY * 2)) hU hct
          simp only [hag2]
    rw [hstep]
    apply ih
    rw [← hstep]
    exact lt_of_le_of_lt
      (unplacedCount_mono tables
        (childFold_placed_mono tables cosA sinA r1 hsub px py step acc cid))
      hU

theorem ptBody_congr (tables : List DBTable) (conns : ConnMap) (cosA sinA : ℚ → ℚ)
    (r1 r2 : LState → DBTable → ℚ → ℚ → LState) (bound : Nat)
    (hag : ∀ st t bx b_y, unplacedCount tables st < bound →
      t.id ∈ tables.map (fun x => x.id) → r1 st t bx b_y = r2 st t bx b_y)
    (hsub : ∀ st t bx b_y a, a ∈ st.placed → a ∈ (r1 st t bx b_y).placed)
    (st : LState) (t : DBTable) (bx b_y : ℚ)
    (hU : unplacedCount tables st < bound + 1)
    (ht : t.id ∈ tables.map (fun x => x.id)) :
    ptBody tables conns cosA sinA r1 st t bx b_y =
      ptBody tables conns cosA sinA r2 st t bx b_y := by
  rw [ptBody, ptBody]
  cases hc : st.placed.contains t.id with
  | true => rw [if_pos rfl, if_pos rfl]
  | false =>
    rw [if_neg Bool.false_ne_true, if_neg Bool.false_ne_true]
    apply congrArg Prod.fst
    apply foldl_childFold_congr tables cosA sinA r1 r2 _ _ _ bound hag hsub
    have h1 : unplacedCount tables
        (⟨t.id :: st.placed,
          (t.id, (findNonOverlappingPosition cosA sinA st.posMap t.id bx b_y).1) :: st.posMap,
          if (findNonOverlappingPosition cosA sinA st.posMap t.id bx b_y).2 then
            t.id :: st.exhausted else st.exhausted⟩ : LState) < unplacedCount tables st :=
      unplacedCount_strict tables st t.id ht (not_mem_of_contains_false hc)
    exact lt_of_lt_of_le h1 (Nat.lt_succ_iff.mp hU)

theorem pt_fix (tables : List DBTable) (conns : ConnMap) (cosA sinA : ℚ → ℚ) :
    ∀ (f1 f2 : Nat) (st : LState) (t : DBTable) (bx b_y : ℚ),
      unplacedCount tables st < f1 → unplacedCount tables st < f2 →
      t.id ∈ tables.map (fun x => x.id) →
      positionTable tables conns cosA sinA f1 st t bx b_y =
        positionTable tables conns cosA sinA f2 st t bx b_y := by
  intro f1
  induction f1 with
  | zero => intro f2 st t bx b_y h1 _ _; exact absurd h1 (by omega)
  | succ f1 ih =>
    intro f2 st t bx b_y h1 h2 ht
    cases f2 with
    | zero => exact absurd h2 (by omega)
    | succ f2 =>
      show ptBody tables conns cosA sinA (positionTable tables conns cosA sinA f1) st t bx b_y =
        ptBody tables conns cosA sinA (positionTable tables conns cosA sinA f2) st t bx b_y
      apply ptBody_congr tables conns cosA sinA _ _ (min f1 f2)
        (fun st' t' bx' by' hU' ht' =>
          ih f2 st' t' bx' by' (lt_of_lt_of_le hU' (min_le_left f1 f2))
            (lt_of_lt_of_le hU' (min_le_right f1 f2)) ht')
        (fun st' t' bx' by' => (pt_keep tables conns cosA sinA f1 st' t' bx' by').2)
        st t bx b_y (by omega) ht

theorem seedLoop_fix (tables : List DBTable) (conns : ConnMap) (cosA sinA : ℚ → ℚ) :
    ∀ (ts : List DBTable) (i : Nat) (st : LState) (f1 f2 : Nat),
      (∀ t ∈ ts, t.id ∈ tables.map (fun x => x.id)) →
      tables.length < f1 → tables.length < f2 →
      seedLoop tables conns cosA sinA f1 i st ts =
        seedLoop tables conns cosA sinA f2 i st ts := by
  intro ts
  induction ts with
  | nil => intro i st f1 f2 _ _ _; rfl
  | cons t rest ih =>
    intro i st f1 f2 hids h1 h2
    rw [seedLoop, seedLoop]
    cases hc : st.placed.contains t.id with
    | true =>
      rw [if_pos rfl]
      exact ih (i + 1) st f1 f2 (fun u hu => hids u (List.mem_cons_of_mem t hu)) h1 h2
    | false =>
      rw [if_neg Bool.false_ne_true]
      rw [pt_fix tables conns cosA sinA f1 f2 st t (seedX i) (seedY i)
        (lt_of_le_of_lt (unplacedCount_le tables st) h1)
        (lt_of_le_of_lt (unplacedCount_le tables st) h2)
        (hids t (List.mem_cons_self t rest))]
      exact ih (i + 1) _ f1 f2 (fun u hu => hids u (List.mem_cons_of_mem t hu)) h1 h2

theorem layoutFuelRun_fix (cosA sinA : ℚ → ℚ) (tables : List DBTable)
    (rels : List DBRelationship) :
    ∀ fuel, tables.length + 1 ≤ fuel →
      layoutFuelRun cosA sinA fuel tables rels = layoutRun cosA sinA tables rels := by
  intro fuel hf
  rw [layoutRun, layoutFuelRun, layoutFuelRun]
  apply seedLoop_fix
  · intro t ht
    exact List.mem_map.mpr ⟨t, (List.perm_insertionSort _ tables).mem_iff.mp ht, rfl⟩
  · omega
  · omega

/-- C2 (amended): the layout always terminates — any fuel of at least
`tables.length + 1` for the neighbor recursion computes the same final
state — and assigns a position to every input table; the spiral search
tests at most 1000 candidate points, returning an overlap-free tested
candidate on success, and when the cap is exhausted it accepts the NEXT
spiral candidate (the point computed from the angle/radius state after the
1000th advance, itself untested) instead of failing. -/
theorem C2_termination_and_totality :
    ∀ (cosA sinA : ℚ → ℚ) (tables : List DBTable) (rels : List DBRelationship),
      (∀ fuel, tables.length + 1 ≤ fuel →
        layoutFuelRun cosA sinA fuel tables rels = layoutRun cosA sinA tables rels) ∧
      (∀ t ∈ tables,
        ((layoutRun cosA sinA tables rels).posMap.find? (fun e => e.1 == t.id)).isSome = true) ∧
      (∀ (posMap : List PosEntry) (tid : String) (bx b_y : ℚ),
        ((findNonOverlappingPosition cosA sinA posMap tid bx b_y).2 = false →
          isOverlapping posMap (findNonOverlappingPosition cosA sinA posMap tid bx b_y).1.1
            (findNonOverlappingPosition cosA sinA posMap tid bx b_y).1.2 tid = false ∧
          ∃ k, k < 1000 ∧ (findNonOverlappingPosition cosA sinA posMap tid bx b_y).1 =
            spiralPoint cosA sinA bx b_y (spiralAdvanceN k (0, 0))) ∧
        ((findNonOverlappingPosition cosA sinA posMap tid bx b_y).2 = true →
          (findNonOverlappingPosition cosA sinA posMap tid bx b_y).1 =
            spiralPoint cosA sinA bx b_y (spiralAdvanceN 1000 (0, 0)) ∧
          ∀ k, k < 1000 →
            isOverlapping posMap
              (spiralPoint cosA sinA bx b_y (spiralAdvanceN k (0, 0))).1
              (spiralPoint cosA sinA bx b_y (spiralAdvanceN k (0, 0))).2 tid = true)) :=
  fun cosA sinA tables rels =>
    ⟨layoutFuelRun_fix cosA sinA tables rels,
     layoutRun_posMap_isSome cosA sinA tables rels,
     fun posMap tid bx b_y => findLoop_spec cosA sinA posMap tid bx b_y 1000 (0, 0)⟩

set_option maxRecDepth 80000 in
/-- Witness for C2 on the concrete two-table run: fuel 5 ≥ 3 yields the same
state, and table `a` received a position. -/
theorem C2_termination_and_totality_witness :
    layoutFuelRun (fun _ => 0) (fun _ => 0) 5 [exTbl "a", exTbl "b"] [] =
      layoutRun (fun _ => 0) (fun _ => 0) [exTbl "a", exTbl "b"] [] ∧
    ((layoutRun (fun _ => 0) (fun _ => 0) [exTbl "a", exTbl "b"] []).posMap.find?
      (fun e => e.1 == (exTbl "a").id)).isSome = true :=
  ⟨(C2_termination_and_totality (fun _ => 0) (fun _ => 0) [exTbl "a", exTbl "b"] []).1 5
      (by decide),
   (C2_termination_and_totality (fun _ => 0) (fun _ => 0) [exTbl "a", exTbl "b"] []).2.1
      (exTbl "a") (by decide)⟩

theorem spiralAdvanceN_succ_right : ∀ (n : Nat) (s : ℚ × ℚ),
    spiralAdvanceN (n + 1) s = spiralAdvance (spiralAdvanceN n s) := by
  intro n
  induction n with
  | zero => intro s; rfl
  | succ n ih =>
    intro s
    show spiralAdvanceN (n + 1) (spiralAdvance s) = _
    rw [ih (spiralAdvance s)]
    rfl

theorem spiralAdvanceN_closed : ∀ k : Nat,
    spiralAdvanceN k ((0 : ℚ), (0 : ℚ)) =
      (((k % 8 : Nat) : ℚ) / 8, ((k / 8 : Nat) : ℚ) * spiralStep) := by
  intro k
  induction k with
  | zero => simp; rfl
  | succ k ih =>
    rw [spiralAdvanceN_succ_right, ih, spiralAdvance]
    by_cases h : k % 8 = 7
    · have hcond : (1 : ℚ) ≤ (((k % 8 : Nat) : ℚ) / 8, ((k / 8 : Nat) : ℚ) * spiralStep).1 + 1/8 := by
        rw [h]
        norm_num
      rw [if_pos hcond]
      have hm : (k + 1) % 8 = 0 := by omega
      have hd : (k + 1) / 8 = k / 8 + 1 := by omega
      rw [hm, hd]
      push_cast
      rw [spiralStep, Prod.mk.injEq]
      exact ⟨by norm_num, by ring⟩
    · have hle : k % 8 ≤ 6 := by omega
      have hcond : ¬((1 : ℚ) ≤ (((k % 8 : Nat) : ℚ) / 8, ((k / 8 : Nat) : ℚ) * spiralStep).1 + 1/8) := by
        have hc : ((k % 8 : Nat) : ℚ) ≤ 6 := by exact_mod_cast hle
        simp only []
        intro hcon
        nlinarith
      rw [if_neg hcond]
      have hm : (k + 1) % 8 = k % 8 + 1 := by omega
      have hd : (k + 1) / 8 = k / 8 := by omega
      rw [hm, hd]
      push_cast
      rw [Prod.mk.injEq]
      exact ⟨by ring, rfl⟩

/-- The abstracted cosine used by the C2 counterexample: tiny at angle 0,
zero elsewhere, so every tested spiral candidate stays inside the overlap
box of an entry at the base point. -/
def cosEx : ℚ → ℚ := fun t => if t = 0 then 1/1000 else 0

/-- The abstracted sine used by the C2 counterexample. -/
def sinEx : ℚ → ℚ := fun _ => 0

theorem C2cex_overlap_all : ∀ k : Nat, k < 1000 →
    isOverlapping [("A", ((0 : ℚ), (0 : ℚ)))]
      (spiralPoint cosEx sinEx 0 0 (spiralAdvanceN k (0, 0))).1
      (spiralPoint cosEx sinEx 0 0 (spiralAdvanceN k (0, 0))).2 "B" = true := by
  intro k hk
  rw [spiralAdvanceN_closed k]
  have hxlt : |(0 : ℚ) + ((k / 8 : Nat) : ℚ) * spiralStep * cosEx (((k % 8 : Nat) : ℚ) / 8) - 0| <
      tableWidth + gapX := by
    by_cases h : k % 8 = 0
    · have hr : (k / 8 : Nat) ≤ 124 := by omega
      have hrq : ((k / 8 : Nat) : ℚ) ≤ 124 := by exact_mod_cast hr
      have hrq0 : (0 : ℚ) ≤ ((k / 8 : Nat) : ℚ) := by positivity
      have hcos : cosEx (((k % 8 : Nat) : ℚ) / 8) = 1/1000 := by
        rw [h]
        norm_num [cosEx]
      rw [hcos, spiralStep, tableWidth, gapX]
      rw [abs_of_nonneg (by nlinarith)]
      nlinarith
    · have hne : (((k % 8 : Nat) : ℚ) / 8) ≠ 0 := by
        have h1 : 1 ≤ k % 8 := by omega
        have h1q : (1 : ℚ) ≤ ((k % 8 : Nat) : ℚ) := by exact_mod_cast h1
        intro hcon
        rw [div_eq_zero_iff] at hcon
        rcases hcon with hcon | hcon
        · nlinarith
        · norm_num at hcon
      have hcos : cosEx (((k % 8 : Nat) : ℚ) / 8) = 0 := by
        rw [cosEx]
        exact if_neg hne
      rw [hcos, tableWidth, gapX]
      norm_num
  have hylt : |(0 : ℚ) + ((k / 8 : Nat) : ℚ) * spiralStep * sinEx (((k % 8 : Nat) : ℚ) / 8) - 0| <
      tableHeight + gapY := by
    rw [sinEx, tableHeight, gapY]
    norm_num
  rw [isOverlapping, List.any_cons, List.any_nil, Bool.or_false]
  have hab : (("A" : String) == "B") = false := by decide
  rw [spiralPoint]
  simp only [hab, Bool.not_false, Bool.true_and, Bool.and_eq_true, decide_eq_true_eq]
  exact ⟨hxlt, hylt⟩

theorem C2cex_flag :
    (findNonOverlappingPosition cosEx sinEx [("A", ((0 : ℚ), (0 : ℚ)))] "B" 0 0).2 = true := by
  cases hf : (findNonOverlappingPosition cosEx sinEx [("A", ((0 : ℚ), (0 : ℚ)))] "B" 0 0).2 with
  | true => rfl
  | false =>
    exfalso
    obtain ⟨hfree, k, hk, hform⟩ :=
      (findLoop_spec cosEx sinEx [("A", ((0 : ℚ), (0 : ℚ)))] "B" 0 0 1000 (0, 0)).1 hf
    rw [hform] at hfree
    have := C2cex_overlap_all k hk
    rw [this] at hfree
    cases hfree

/-- C2, counterexample: on the exhausted-cap path the accepted position is
NOT the last tested candidate.  With one registered table at the base point
and `cosA`/`sinA` instantiated by `cosEx`/`sinEx`, all 1000 tested spiral
candidates overlap, so the cap is exhausted; the candidates tested are the
states after 0..999 advances, yet the returned point is the state after
1000 advances — `(75/4, 0)` — while the last tested candidate (999
advances) is `(0, 0)`. -/
theorem C2_counterexample :
    (findNonOverlappingPosition cosEx sinEx [("A", ((0 : ℚ), (0 : ℚ)))] "B" 0 0).2 = true ∧
    (findNonOverlappingPosition cosEx sinEx [("A", ((0 : ℚ), (0 : ℚ)))] "B" 0 0).1 =
      spiralPoint cosEx sinEx 0 0 (spiralAdvanceN 1000 (0, 0)) ∧
    spiralPoint cosEx sinEx 0 0 (spiralAdvanceN 1000 (0, 0)) = (75/4, 0) ∧
    spiralPoint cosEx sinEx 0 0 (spiralAdvanceN 999 (0, 0)) = (0, 0) ∧
    (findNonOverlappingPosition cosEx sinEx [("A", ((0 : ℚ), (0 : ℚ)))] "B" 0 0).1 ≠
      spiralPoint cosEx sinEx 0 0 (spiralAdvanceN 999 (0, 0)) := by
  have hflag := C2cex_flag
  have hres : (findNonOverlappingPosition cosEx sinEx [("A", ((0 : ℚ), (0 : ℚ)))] "B" 0 0).1 =
      spiralPoint cosEx sinEx 0 0 (spiralAdvanceN 1000 (0, 0)) :=
    ((findLoop_spec cosEx sinEx [("A", ((0 : ℚ), (0 : ℚ)))] "B" 0 0 1000 (0, 0)).2 hflag).1
  have h1000 : spiralPoint cosEx sinEx 0 0 (spiralAdvanceN 1000 (0, 0)) = (75/4, 0) := by
    rw [spiralAdvanceN_closed, spiralPoint]
    norm_num [cosEx, sinEx, spiralStep]
  have h999 : spiralPoint cosEx sinEx 0 0 (spiralAdvanceN 999 (0, 0)) = (0, 0) := by
    rw [spiralAdvanceN_closed, spiralPoint]
    norm_num [cosEx, sinEx, spiralStep]
  exact ⟨hflag, hres, h1000, h999, by rw [hres, h1000, h999]; norm_num⟩

/-!  ## C6: grid seeding of cluster seeds -/

theorem insertionSort_of_all {α : Type} (r : α → α → Prop) [DecidableRel r]
    (hall : ∀ a b, r a b) : ∀ l : List α, l.insertionSort r = l := by
  intro l
  induction l with
  | nil => rfl
  | cons a l ih =>
    rw [List.insertionSort, ih]
    cases l with
    | nil => rfl
    | cons b bs => rw [List.orderedInsert, if_pos (hall a b)]

theorem one_le_abs_natCast_sub {a b : Nat} (h : a ≠ b) :
    (1 : ℚ) ≤ |(a : ℚ) - (b : ℚ)| := by
  rcases Nat.lt_or_ge a b with hlt | hge
  · have h1 : a + 1 ≤ b := hlt
    have h1q : (a : ℚ) + 1 ≤ (b : ℚ) := by exact_mod_cast h1
    rw [abs_sub_comm, abs_of_nonneg (by linarith)]
    linarith
  · have hlt : b < a := lt_of_le_of_ne hge (fun hq => h hq.symm)
    have h1q : (b : ℚ) + 1 ≤ (a : ℚ) := by exact_mod_cast hlt
    rw [abs_of_nonneg (by linarith)]
    linarith

theorem seeds_far {i j : Nat} (hne : i ≠ j) :
    ¬(|seedX i - seedX j| < tableWidth + gapX ∧ |seedY i - seedY j| < tableHeight + gapY) := by
  rintro ⟨hx, hy⟩
  rw [seedX, seedX, startX, tableWidth, gapX] at hx
  rw [seedY, seedY, startY, tableHeight, gapY] at hy
  by_cases hm : i % 6 = j % 6
  · have hd : i / 6 ≠ j / 6 := by
      intro hq
      exact hne (by omega)
    have h1 := one_le_abs_natCast_sub hd
    have hyeq : |(100 : ℚ) + ((i / 6 : Nat) : ℚ) * (300 + 100 * 2) -
        (100 + ((j / 6 : Nat) : ℚ) * (300 + 100 * 2))| =
        |((i / 6 : Nat) : ℚ) - ((j / 6 : Nat) : ℚ)| * 500 := by
      rw [← abs_of_nonneg (by norm_num : (0:ℚ) ≤ 500), ← abs_mul]
      ring_nf
    rw [hyeq] at hy
    nlinarith [abs_nonneg (((i / 6 : Nat) : ℚ) - ((j / 6 : Nat) : ℚ))]
  · have h1 := one_le_abs_natCast_sub hm
    have hxeq : |(100 : ℚ) + ((i % 6 : Nat) : ℚ) * (200 + 100 * 2) -
        (100 + ((j % 6 : Nat) : ℚ) * (200 + 100 * 2))| =
        |((i % 6 : Nat) : ℚ) - ((j % 6 : Nat) : ℚ)| * 400 := by
      rw [← abs_of_nonneg (by norm_num : (0:ℚ) ≤ 400), ← abs_mul]
      ring_nf
    rw [hxeq] at hx
    nlinarith [abs_nonneg (((i % 6 : Nat) : ℚ) - ((j % 6 : Nat) : ℚ))]

theorem findFirstFree (cosA sinA : ℚ → ℚ) (pm : List PosEntry) (tid : String) (bx b_y : ℚ)
    (hfree : isOverlapping pm (spiralPoint cosA sinA bx b_y (0, 0)).1
      (spiralPoint cosA sinA bx b_y (0, 0)).2 tid = false) :
    findNonOverlappingPosition cosA sinA pm tid bx b_y =
      (spiralPoint cosA sinA bx b_y (0, 0), false) := by
  show findLoop cosA sinA pm tid bx b_y (Nat.succ 999) (0, 0) = _
  rw [findLoop, hfree, if_neg Bool.false_ne_true]

theorem pt_norel (tables : List DBTable) (cosA sinA : ℚ → ℚ) (f : Nat) (st : LState)
    (t : DBTable) (bx b_y : ℚ)
    (hnp : st.placed.contains t.id = false)
    (hfree : isOverlapping st.posMap (spiralPoint cosA sinA bx b_y (0, 0)).1
      (spiralPoint cosA sinA bx b_y (0, 0)).2 t.id = false) :
    positionTable tables [] cosA sinA (Nat.succ f) st t bx b_y =
      ⟨t.id :: st.placed, (t.id, spiralPoint cosA sinA bx b_y (0, 0)) :: st.posMap,
       st.exhausted⟩ := by
  show ptBody tables [] cosA sinA (positionTable tables [] cosA sinA f) st t bx b_y = _
  rw [ptBody, hnp, if_neg Bool.false_ne_true,
    findFirstFree cosA sinA st.posMap t.id bx b_y hfree]
  have hconns : connsLookup [] t.id = [] := rfl
  rw [hconns]
  simp

theorem seedLoop_norel (tables : List DBTable) (cosA sinA : ℚ → ℚ) (f : Nat) :
    ∀ (ts : List DBTable) (i0 : Nat) (st : LState),
      ((ts.map (fun t => t.id)).Nodup) →
      (∀ t ∈ ts, st.placed.contains t.id = false) →
      (∀ e ∈ st.posMap, ∃ j, j < i0 ∧ e.2 = (seedX j, seedY j)) →
      seedLoop tables [] cosA sinA (Nat.succ f) i0 st ts =
        ⟨(ts.map (fun t => t.id)).reverse ++ st.placed,
         ((ts.enumFrom i0).map (fun p => (p.2.id, (seedX p.1, seedY p.1)))).reverse ++ st.posMap,
         st.exhausted⟩ := by
  intro ts
  induction ts with
  | nil => intro i0 st _ _ _; simp [seedLoop]
  | cons t rest ih =>
    intro i0 st hnd hunp hseeds
    have hnpt : st.placed.contains t.id = false := hunp t (List.mem_cons_self t rest)
    have hpt0 : spiralPoint cosA sinA (seedX i0) (seedY i0) (0, 0) = (seedX i0, seedY i0) := by
      rw [spiralPoint, Prod.mk.injEq]
      constructor <;> ring
    have hfree : isOverlapping st.posMap
        (spiralPoint cosA sinA (seedX i0) (seedY i0) (0, 0)).1
        (spiralPoint cosA sinA (seedX i0) (seedY i0) (0, 0)).2 t.id = false := by
      rw [isOverlapping, List.any_eq_false]
      intro e he
      obtain ⟨j, hj, hej⟩ := hseeds e he
      rw [hpt0]
      cases hbe : e.1 == t.id with
      | true => simp
      | false =>
        have hsep := seeds_far (show i0 ≠ j by omega)
        rw [hej]
        simp only [Bool.not_false, Bool.true_and, Bool.and_eq_true, decide_eq_true_eq]
        intro hcon
        exact hsep ⟨hcon.1, hcon.2⟩
    rw [seedLoop, hnpt, if_neg Bool.false_ne_true,
      pt_norel tables cosA sinA f st t (seedX i0) (seedY i0) hnpt hfree, hpt0]
    rw [List.map_cons, List.nodup_cons] at hnd
    rw [ih (i0 + 1)
      (⟨t.id :: st.placed, (t.id, (seedX i0, seedY i0)) :: st.posMap, st.exhausted⟩ : LState)
      hnd.2 ?hunp ?hseeds]
    case hunp =>
      intro u hu
      apply contains_false_of_not_mem
      intro hmem
      rcases List.mem_cons.mp hmem with hq | hq
      · exact hnd.1 (hq ▸ List.mem_map.mpr ⟨u, hu, rfl⟩)
      · exact not_mem_of_contains_false (hunp u (List.mem_cons_of_mem t hu)) hq
    case hseeds =>
      intro e he
      rcases List.mem_cons.mp he with rfl | he'
      · exact ⟨i0, by omega, rfl⟩
      · obtain ⟨j, hj, hej⟩ := hseeds e he'
        exact ⟨j, by omega, hej⟩
    rw [List.enumFrom_cons, List.map_cons, List.map_cons, List.reverse_cons, List.reverse_cons]
    simp [List.append_assoc]

theorem layoutRun_norel (cosA sinA : ℚ → ℚ) (tables : List DBTable)
    (hnd : (tables.map (fun t => t.id)).Nodup) :
    layoutRun cosA sinA tables [] =
      ⟨(tables.map (fun t => t.id)).reverse ++ [],
       ((tables.enumFrom 0).map (fun p => (p.2.id, (seedX p.1, seedY p.1)))).reverse ++ [],
       []⟩ := by
  rw [layoutRun, layoutFuelRun]
  rw [show (([] : List DBRelationship).filter (fun rel =>
      tables.any (fun t => t.id == rel.sourceTableId) &&
        tables.any (fun t => t.id == rel.targetTableId))) = [] from rfl]
  rw [show buildConns ([] : List DBRelationship) = [] from rfl]
  rw [insertionSort_of_all (connDesc []) (fun _ _ => le_refl 0) tables]
  exact seedLoop_norel tables cosA sinA tables.length tables 0 initState hnd
    (fun t _ => rfl) (fun e he => absurd he (List.not_mem_nil e))

theorem norel_posMap_find (cosA sinA : ℚ → ℚ) (tables : List DBTable)
    (hnd : (tables.map (fun t => t.id)).Nodup) (i : Nat) (h : i < tables.length) :
    (layoutRun cosA sinA tables []).posMap.find?
      (fun e => e.1 == (tables.get ⟨i, h⟩).id) =
    some ((tables.get ⟨i, h⟩).id, (seedX i, seedY i)) := by
  rw [layoutRun_norel cosA sinA tables hnd]
  have hkeys : ((((tables.enumFrom 0).map
      (fun p => (p.2.id, (seedX p.1, seedY p.1)))).reverse ++
        ([] : List PosEntry)).map (fun e => e.1)).Nodup := by
    rw [List.append_nil, List.map_reverse, List.nodup_reverse, List.map_map]
    have : ((fun e : PosEntry => e.1) ∘ fun p : Nat × DBTable =>
        ((p.2.id, (seedX p.1, seedY p.1)) : PosEntry)) =
        (fun t : DBTable => t.id) ∘ Prod.snd := rfl
    rw [this, ← List.map_map, List.enumFrom_map_snd]
    exact hnd
  have hlen : i < (tables.enumFrom 0).length := by rw [List.enumFrom_length]; exact h
  have hmem0 : ((i, tables.get ⟨i, h⟩) : Nat × DBTable) ∈ tables.enumFrom 0 := by
    have hget := List.getElem_enumFrom tables 0 i hlen
    rw [Nat.zero_add] at hget
    have := List.getElem_mem hlen
    rw [hget] at this
    exact this
  have hmem : (((tables.get ⟨i, h⟩).id, (seedX i, seedY i)) : PosEntry) ∈
      ((tables.enumFrom 0).map (fun p => (p.2.id, (seedX p.1, seedY p.1)))).reverse ++
        ([] : List PosEntry) := by
    rw [List.append_nil, List.mem_reverse]
    exact List.mem_map.mpr ⟨(i, tables.get ⟨i, h⟩), hmem0, rfl⟩
  exact find?_of_mem_nodupKeys _ hkeys _ hmem

/-- C6 (amended): with the grid spacing of the source — footprint plus
TWICE the gap on each axis — every table of a relationship-free run with
distinct ids is placed exactly at its grid cell: column `i % 6`, row
`i / 6`, horizontally spaced by `tableWidth + 2·gapX` and vertically by
`tableHeight + 2·gapY` from the starting offset, so at most 6 cluster
seeds occupy a row before wrapping. -/
theorem C6_grid_seeding :
    ∀ (cosA sinA : ℚ → ℚ) (tables : List DBTable),
      (tables.map (fun t => t.id)).Nodup →
      ∀ (i : Nat) (h : i < tables.length) (tbl : DBTable),
        (adjustTablePositions cosA sinA tables [])[i]? = some tbl →
        tbl.x = startX + ((i % 6 : Nat) : ℚ) * (tableWidth + gapX * 2) ∧
        tbl.y = startY + ((i / 6 : Nat) : ℚ) * (tableHeight + gapY * 2) := by
  intro cosA sinA tables hnd i h tbl hsome
  rw [adjustTablePositions, applyPositions, List.getElem?_map,
    List.getElem?_eq_getElem h] at hsome
  simp only [Option.map_some'] at hsome
  have hfind := norel_posMap_find cosA sinA tables hnd i h
  rw [List.get_eq_getElem] at hfind
  rw [hfind] at hsome
  cases hsome
  exact ⟨rfl, rfl⟩

set_option maxRecDepth 80000 in
/-- C6, counterexample: two unconnected tables; the second cluster seed sits
at `x = 500 = startX + 1·(tableWidth + 2·gapX)`, not at
`startX + 1·(tableWidth + gapX) = 400` as the claim's spacing asserts. -/
theorem C6_counterexample :
    ((adjustTablePositions (fun _ => 0) (fun _ => 0) [exTbl "a", exTbl "b"] []).map
      (fun t => t.x)) = [100, 500] ∧
    (500 : ℚ) ≠ startX + ((1 % 6 : Nat) : ℚ) * (tableWidth + gapX) := by
  constructor
  · exact of_decide_eq_true (by with_unfolding_all rfl)
  · rw [startX, tableWidth, gapX]
    norm_num

set_option maxRecDepth 80000 in
/-- Witness for C6 on the concrete two-table run: the second table sits at
the second grid cell. -/
theorem C6_grid_seeding_witness :
    ((([exTbl "a", exTbl "b"] : List DBTable).map (fun t => t.id)).Nodup) ∧
    (adjustTablePositions (fun _ => 0) (fun _ => 0) [exTbl "a", exTbl "b"] [])[1]? =
      some exTblB ∧
    exTblB.x = startX + ((1 % 6 : Nat) : ℚ) * (tableWidth + gapX * 2) ∧
    exTblB.y = startY + ((1 / 6 : Nat) : ℚ) * (tableHeight + gapY * 2) := by
  have hnd : (([exTbl "a", exTbl "b"] : List DBTable).map (fun t => t.id)).Nodup := by decide
  have hsome : (adjustTablePositions (fun _ => 0) (fun _ => 0) [exTbl "a", exTbl "b"] [])[1]? =
      some exTblB := of_decide_eq_true (by with_unfolding_all rfl)
  exact ⟨hnd, hsome,
    C6_grid_seeding (fun _ => 0) (fun _ => 0) [exTbl "a", exTbl "b"] hnd 1 (by decide)
      exTblB hsome⟩

end ChartDB
